import Mathlib

/-!
Verification development for the teaching-software-manager configuration
store and Excel synchronization engine.

The Python sources are shallowly embedded:
* Python `str` values are modelled as `List Char` (`Str`), with the string
  operations the code uses (`str.split(",")`, `str.strip()`, `", ".join`)
  defined explicitly below.
* YAML documents are modelled by the `Config` structure (`src/config_loader.py`
  loads the file into a dict with top-level keys `instructors`, `modules`,
  `audit_log`, `email_config`, `report_config`).  Python dicts preserve
  insertion order, so maps are association lists `List (Str × α)`; dict keys
  are unique in Python, which theorems assume through `Nodup` hypotheses
  where it matters.
* Record fields that every code path reads through `.get(k, default)` /
  `.get(k) or ''` are modelled as total fields (absence behaves like the
  default).  Fields whose *presence* the code tests (`'email' in data`,
  validator checks) are modelled as `Option`.
* The writer (`src/config_writer.py`) is embedded as pure functions
  `Config → Option Config` (`none` = the Python method returned `False`
  without calling `_save_config`; `some c` = it saved `c` and returned
  `True`).  `datetime.now().strftime('%Y-%m-%d')` is a parameter `today`.
* File persistence (`_backup_config` / `_save_config`) is embedded as a
  small state machine over `FS`, recording the sequence of on-disk states a
  writer operation passes through.
-/

namespace TSM

/-- Python strings. -/
abbrev Str := List Char

/-- Python `str.isspace` characters relevant to `str.strip()`. -/
def pySpace (c : Char) : Bool :=
  c = ' ' || c = '\t' || c = '\n' || c = '\r' || c = '\x0b' || c = '\x0c'

/-- Python `s.strip()`: drop leading and trailing whitespace. -/
def pyStrip (s : Str) : Str :=
  ((s.dropWhile pySpace).reverse.dropWhile pySpace).reverse

/-- Python `s.split(",")`: split at every comma; `"".split(",") == [""]`. -/
def splitComma : Str → List Str
  | [] => [[]]
  | c :: cs =>
    if c = ',' then [] :: splitComma cs
    else List.modifyHead (fun t => c :: t) (splitComma cs)

/-- Python `sep.join(l)`. -/
def joinSep (sep : Str) : List Str → Str
  | [] => []
  | [x] => x
  | x :: y :: rest => x ++ sep ++ joinSep sep (y :: rest)

/-- The separator `", "` used by every join in `excel_sync.py`. -/
def commaSpace : Str := [',', ' ']

/-- The list comprehension `[m.strip() for m in s.split(",") if m.strip()]`
used by `import_from_excel` for instructor module lists and OS lists. -/
def importSplit (s : Str) : List Str :=
  ((splitComma s).map pyStrip).filter (fun t => t ≠ [])

/-- Decimal rendering of a natural number (Python f-string `{idx}`). -/
def natStr (n : Nat) : Str := Nat.toDigits 10 n

/-- Decimal rendering of an integer. -/
def intStr (n : Int) : Str :=
  if n < 0 then '-' :: natStr n.natAbs else natStr n.natAbs

/-- The literal `"instructors"`. -/
def instructorsKey : Str := "instructors".toList

/-- The literal `"modules"`. -/
def modulesKey : Str := "modules".toList

/-- The literal `"Yes"`. -/
def yesStr : Str := "Yes".toList

/-- The literal `"No"`. -/
def noStr : Str := "No".toList

/-- The literal `"updated"`. -/
def updatedStr : Str := "updated".toList

/-- The literal `"?"`. -/
def questionStr : Str := "?".toList

/-! ## Document model (`config/teaching_software.yml`) -/

/-- A software requirement inside a module (`modules.<id>.software[i]`).
All fields are read by the code through `.get(k, default)`, so they are
total with `''` / `[]` / `False` standing for an absent key. -/
structure Software where
  name : Str
  version : Str
  purpose : Str
  category : Str
  critical : Bool
  os_supported : List Str
  notes : Str
  last_verified : Str
  verified_by : Str
deriving DecidableEq, Repr

/-- An entry of a module's `os_required` list.  The YAML may hold either a
mapping (with `name` and optional `note` / `description`, read through
`.get(k) or ...`, so `[]` models an absent or empty value) or a bare
scalar, which `export_to_excel` renders with `str(...)`. -/
inductive OSEntry where
  | dict (name note descr : Str)
  | raw (s : Str)
deriving DecidableEq, Repr

/-- A module record (`modules.<id>`). -/
structure Module where
  code : Str
  name : Str
  description : Str
  year : Int
  semester : Int
  os_required : List OSEntry
  instructor_id : Str
  software : List Software
deriving DecidableEq, Repr

/-- An instructor record (`instructors.<id>`). -/
structure Instructor where
  name : Str
  email : Str
  department : Str
  modules : List Str
  last_review : Str
deriving DecidableEq, Repr

/-- An audit-log entry (`audit_log[i]`), as read by the ChangeLog export in
`excel_sync.py`: `changes` holds (field, old, new) triples for updates. -/
structure AuditEntry where
  timestamp : Str
  module_id : Str
  software_name : Str
  action : Str
  actor : Str
  changes : List (Str × Str × Str)
deriving DecidableEq, Repr

/-- The whole persisted document.  `email_config` / `report_config` are
opaque payloads consumed read-only by the notification collaborators. -/
structure Config where
  instructors : List (Str × Instructor)
  modules : List (Str × Module)
  audit_log : List AuditEntry
  email_config : Str
  report_config : Str
deriving DecidableEq, Repr

/-! ## Association-list operations (Python dict semantics).
Python dict keys are unique; `modifyVal` maps over every entry with the key,
which on unique-key lists is exactly `d[k] = f(d[k])`. -/

/-- `d.get(k)` / `d[k]` lookup (first match). -/
def alookup {α : Type} : List (Str × α) → Str → Option α
  | [], _ => none
  | (k', v) :: t, k => if k' = k then some v else alookup t k

/-- Python `k in d`. -/
def hasKey {α : Type} (l : List (Str × α)) (k : Str) : Bool :=
  (alookup l k).isSome

/-- In-place value update `d[k] = f(d[k])` (dict keys are unique). -/
def modifyVal {α : Type} (l : List (Str × α)) (k : Str) (f : α → α) :
    List (Str × α) :=
  l.map (fun p => if p.1 = k then (p.1, f p.2) else p)

/-- Python dict assignment `d[k] = v`: replace in place if the key exists,
otherwise append (insertion order preserved). -/
def dictAssign {α : Type} (l : List (Str × α)) (k : Str) (v : α) :
    List (Str × α) :=
  if hasKey l k then modifyVal l k (fun _ => v) else l ++ [(k, v)]

/-- Python `list.remove(x)`: removes the first occurrence only. -/
def removeFirst (l : List Str) (x : Str) : List Str :=
  match l with
  | [] => []
  | y :: ys => if y = x then ys else y :: removeFirst ys x

/-! ## ConfigWriter (`src/config_writer.py`)

Each method backs up, loads the file, applies the change, and saves.  The
pure content of a method is a function `Config → Option Config`; the I/O
shell around it is the `writerStates` machine further below. -/

/-- `ConfigWriter.add_instructor` (lines 50-75).  The `'instructors' not in
config` branch creates an empty dict, which the total `instructors` field
(defaulting to `[]`) already models. -/
def addInstructor (today : Str) (cfg : Config) (iid : Str)
    (data : Instructor) : Option Config :=
  if hasKey cfg.instructors iid then none
  else if cfg.instructors.any (fun q => decide (q.2.email = data.email)) then
    none
  else
    some { cfg with
      instructors := cfg.instructors ++ [(iid, { data with last_review := today })] }

/-- A partial instructor record: the dict passed to `update_instructor`.
`none` models an absent key. -/
structure InstructorPatch where
  name : Option Str := none
  email : Option Str := none
  department : Option Str := none
  modules : Option (List Str) := none
  last_review : Option Str := none
deriving DecidableEq, Repr

/-- Python `config['instructors'][iid].update(data)`. -/
def Instructor.applyPatch (i : Instructor) (p : InstructorPatch) : Instructor :=
  { name := p.name.getD i.name
    email := p.email.getD i.email
    department := p.department.getD i.department
    modules := p.modules.getD i.modules
    last_review := p.last_review.getD i.last_review }

/-- `ConfigWriter.update_instructor` (lines 77-99). -/
def updateInstructor (cfg : Config) (iid : Str) (p : InstructorPatch) :
    Option Config :=
  if ¬ hasKey cfg.instructors iid then none
  else
    match p.email with
    | some e =>
      if cfg.instructors.any (fun q => decide (q.1 ≠ iid ∧ q.2.email = e)) then
        none
      else
        some { cfg with
          instructors := modifyVal cfg.instructors iid (fun i => i.applyPatch p) }
    | none =>
      some { cfg with
        instructors := modifyVal cfg.instructors iid (fun i => i.applyPatch p) }

/-- `ConfigWriter.delete_instructor` (lines 101-116); `del` removes the
(unique) entry with that key. -/
def deleteInstructor (cfg : Config) (iid : Str) : Option Config :=
  if ¬ hasKey cfg.instructors iid then none
  else
    some { cfg with
      instructors := cfg.instructors.filter (fun q => decide (q.1 ≠ iid)) }

/-- `ConfigWriter.add_module` (lines 118-144).  `if new_code:` is Python
truthiness, i.e. the check is skipped for an empty/absent code. -/
def addModule (cfg : Config) (mid : Str) (data : Module) : Option Config :=
  if hasKey cfg.modules mid then none
  else if data.code ≠ [] &&
      cfg.modules.any (fun q => decide (q.2.code = data.code)) then none
  else
    some { cfg with modules := cfg.modules ++ [(mid, data)] }

/-- A partial module record: the dict passed to `update_module`. -/
structure ModulePatch where
  code : Option Str := none
  name : Option Str := none
  description : Option Str := none
  year : Option Int := none
  semester : Option Int := none
  os_required : Option (List OSEntry) := none
  instructor_id : Option Str := none
  software : Option (List Software) := none
deriving DecidableEq, Repr

/-- Python `config['modules'][mid].update(data)`. -/
def Module.applyPatch (m : Module) (p : ModulePatch) : Module :=
  { code := p.code.getD m.code
    name := p.name.getD m.name
    description := p.description.getD m.description
    year := p.year.getD m.year
    semester := p.semester.getD m.semester
    os_required := p.os_required.getD m.os_required
    instructor_id := p.instructor_id.getD m.instructor_id
    software := p.software.getD m.software }

/-- `ConfigWriter.update_module` (lines 146-168).  The duplicate-code check
runs only when `'code' in module_data and module_data.get('code')`. -/
def updateModule (cfg : Config) (mid : Str) (p : ModulePatch) : Option Config :=
  if ¬ hasKey cfg.modules mid then none
  else
    match p.code with
    | some c =>
      if c ≠ [] &&
          cfg.modules.any (fun q => decide (q.1 ≠ mid ∧ q.2.code = c)) then none
      else
        some { cfg with
          modules := modifyVal cfg.modules mid (fun m => m.applyPatch p) }
    | none =>
      some { cfg with
        modules := modifyVal cfg.modules mid (fun m => m.applyPatch p) }

/-- The per-instructor cascade of `delete_module` (lines 182-185): strip the
module id with `list.remove` (first occurrence only), guarded by
`module_id in inst_data['modules']`. -/
def stripModuleRef (mid : Str) (i : Instructor) : Instructor :=
  if mid ∈ i.modules then { i with modules := removeFirst i.modules mid } else i

/-- `ConfigWriter.delete_module` (lines 170-191): deletes the module and
strips it from every instructor's list. -/
def deleteModule (cfg : Config) (mid : Str) : Option Config :=
  if ¬ hasKey cfg.modules mid then none
  else
    some { cfg with
      modules := cfg.modules.filter (fun q => decide (q.1 ≠ mid))
      instructors := cfg.instructors.map (fun q => (q.1, stripModuleRef mid q.2)) }

/-- `ConfigWriter.add_software_to_module` (lines 193-217). -/
def addSoftwareToModule (today : Str) (cfg : Config) (mid : Str)
    (data : Software) : Option Config :=
  match alookup cfg.modules mid with
  | none => none
  | some m =>
    if m.software.any (fun sw => decide (sw.name = data.name)) then none
    else
      some { cfg with
        modules := modifyVal cfg.modules mid (fun mm =>
          { mm with software := mm.software ++ [{ data with last_verified := today }] }) }

/-- A partial software record: the dict passed to `update_software_in_module`. -/
structure SoftwarePatch where
  name : Option Str := none
  version : Option Str := none
  purpose : Option Str := none
  category : Option Str := none
  critical : Option Bool := none
  os_supported : Option (List Str) := none
  notes : Option Str := none
  last_verified : Option Str := none
  verified_by : Option Str := none
deriving DecidableEq, Repr

/-- Python `software[idx].update(data)`. -/
def Software.applyPatch (s : Software) (p : SoftwarePatch) : Software :=
  { name := p.name.getD s.name
    version := p.version.getD s.version
    purpose := p.purpose.getD s.purpose
    category := p.category.getD s.category
    critical := p.critical.getD s.critical
    os_supported := p.os_supported.getD s.os_supported
    notes := p.notes.getD s.notes
    last_verified := p.last_verified.getD s.last_verified
    verified_by := p.verified_by.getD s.verified_by }

/-- The loop in `update_software_in_module`: patch the first entry whose
name matches, `none` if no entry matches. -/
def updateSwList (l : List Software) (nm : Str) (p : SoftwarePatch) :
    Option (List Software) :=
  match l with
  | [] => none
  | sw :: rest =>
    if sw.name = nm then some (sw.applyPatch p :: rest)
    else (updateSwList rest nm p).map (fun r => sw :: r)

/-- `ConfigWriter.update_software_in_module` (lines 219-241). -/
def updateSoftwareInModule (cfg : Config) (mid : Str) (nm : Str)
    (p : SoftwarePatch) : Option Config :=
  match alookup cfg.modules mid with
  | none => none
  | some m =>
    match updateSwList m.software nm p with
    | none => none
    | some _ =>
      some { cfg with
        modules := modifyVal cfg.modules mid (fun mm =>
          { mm with software := (updateSwList mm.software nm p).getD mm.software }) }

/-- `ConfigWriter.delete_software_from_module` (lines 243-269): filters out
every entry with the name and succeeds iff the list got shorter. -/
def deleteSoftwareFromModule (cfg : Config) (mid : Str) (nm : Str) :
    Option Config :=
  match alookup cfg.modules mid with
  | none => none
  | some m =>
    if (m.software.filter (fun s => decide (s.name ≠ nm))).length
        < m.software.length then
      some { cfg with
        modules := modifyVal cfg.modules mid (fun mm =>
          { mm with software := mm.software.filter (fun s => decide (s.name ≠ nm)) }) }
    else none

/-! ## ConfigLoader read accessors (`src/config_loader.py`) -/

/-- `ConfigLoader.get_instructor` (raises `ValueError` when absent, modelled
as `none`). -/
def getInstructor (cfg : Config) (iid : Str) : Option Instructor :=
  alookup cfg.instructors iid

/-- `ConfigLoader.get_instructor_modules` (lines 66-69). -/
def getInstructorModules (cfg : Config) (iid : Str) : Option (List Str) :=
  (getInstructor cfg iid).map (fun i => i.modules)

/-! ## Persistence state machine

`ConfigWriter._backup_config` copies the current file over the rolling
`.yml.backup` and a timestamped backup (both `shutil.copy2`, before any
mutation).  `ConfigWriter._save_config` (lines 45-48) does
`open(self.config_path, 'w')` — which truncates the destination in place —
followed by `yaml.dump`.  `FS` records what each of the three on-disk files
currently parses to (`none` = missing, truncated or half-written). -/

structure FS where
  primary : Option Config
  backup : Option Config
  tsBackup : Option Config
deriving DecidableEq, Repr

/-- The successive on-disk states a writer method drives the file system
through: initial state, state after `_backup_config`, and — when the pure
mutation `op` succeeds — the state after `open(path, 'w')` truncated the
primary file and the state after `yaml.dump` finished writing.  When the
primary file is missing, `_backup_config` raises and the `except` handler
returns `False` with nothing changed; when `op` fails, `_save_config` is
never called. -/
def writerStates (op : Config → Option Config) (fs : FS) : List FS :=
  match fs.primary with
  | none => [fs]
  | some cur =>
    let fs1 : FS := { fs with backup := some cur, tsBackup := some cur }
    match op cur with
    | none => [fs, fs1]
    | some new =>
      [fs, fs1, { fs1 with primary := none }, { fs1 with primary := some new }]

/-! ## Validator input model and `ConfigLoader.validate_config`

The validator inspects the raw parsed YAML for *missing keys*, so its input
is modelled with explicit `Option` fields: `none` is an absent key. -/

/-- A software entry as the validator sees it. -/
structure RawSoftware where
  name : Option Str
  purpose : Option Str
deriving DecidableEq, Repr

/-- A module record as the validator sees it. -/
structure RawModule where
  name : Option Str
  software : Option (List RawSoftware)
deriving DecidableEq, Repr

/-- An instructor record as the validator sees it. -/
structure RawInstructor where
  email : Option Str
  modules : Option (List Str)
deriving DecidableEq, Repr

/-- A raw document as the validator sees it: each top-level section may be
absent entirely. -/
structure RawConfig where
  instructors : Option (List (Str × RawInstructor))
  modules : Option (List (Str × RawModule))
deriving DecidableEq, Repr

/-- `f"Missing required key: {key}"`. -/
def msgMissingKey (k : Str) : Str := "Missing required key: ".toList ++ k

/-- `f"Instructor {inst_id} missing email"`. -/
def msgInstMissingEmail (iid : Str) : Str :=
  "Instructor ".toList ++ iid ++ " missing email".toList

/-- `f"Instructor {inst_id} missing modules list"`. -/
def msgInstMissingModules (iid : Str) : Str :=
  "Instructor ".toList ++ iid ++ " missing modules list".toList

/-- `f"Instructor {inst_id} references non-existent module: {mod_id}"`. -/
def msgInstBadRef (iid mid : Str) : Str :=
  "Instructor ".toList ++ iid ++ " references non-existent module: ".toList ++ mid

/-- `f"Module {mod_id} missing name"`. -/
def msgModMissingName (mid : Str) : Str :=
  "Module ".toList ++ mid ++ " missing name".toList

/-- `f"Module {mod_id} missing software list"`. -/
def msgModMissingSoftware (mid : Str) : Str :=
  "Module ".toList ++ mid ++ " missing software list".toList

/-- `f"Module {mod_id} software #{idx} missing name"`. -/
def msgSwMissingName (mid : Str) (idx : Nat) : Str :=
  "Module ".toList ++ mid ++ " software #".toList ++ natStr idx ++
    " missing name".toList

/-- `f"Module {mod_id} software {soft.get('name', '?')} missing purpose"`. -/
def msgSwMissingPurpose (mid : Str) (nm : Str) : Str :=
  "Module ".toList ++ mid ++ " software ".toList ++ nm ++
    " missing purpose".toList

/-- The `errors` list accumulated by `ConfigLoader.validate_config`
(lines 100-143), in the exact order the Python code appends. -/
def vcErrors (c : RawConfig) : List Str :=
  (if c.instructors.isNone then [msgMissingKey instructorsKey] else []) ++
  (if c.modules.isNone then [msgMissingKey modulesKey] else []) ++
  ((c.instructors.getD []).flatMap (fun q =>
    (if q.2.email.isNone then [msgInstMissingEmail q.1] else []) ++
    (match q.2.modules with
     | none => [msgInstMissingModules q.1]
     | some ms =>
       ms.flatMap (fun mid =>
         if hasKey (c.modules.getD []) mid then [] else [msgInstBadRef q.1 mid])))) ++
  ((c.modules.getD []).flatMap (fun q =>
    (if q.2.name.isNone then [msgModMissingName q.1] else []) ++
    (match q.2.software with
     | none => [msgModMissingSoftware q.1]
     | some l =>
       l.enum.flatMap (fun p =>
         (if p.2.name.isNone then [msgSwMissingName q.1 p.1] else []) ++
         (if p.2.purpose.isNone then
            [msgSwMissingPurpose q.1 (p.2.name.getD questionStr)] else [])))))

/-- `ConfigLoader.validate_config`: `(len(errors) == 0, errors)`. -/
def validateConfig (c : RawConfig) : Bool × List Str :=
  (vcErrors c = [], vcErrors c)

/-! ## The `/api/module/<id>/update` route (`web/app.py`, lines 439-495)

The route builds a patch from the keys present in the JSON request, calls
`ConfigWriter.update_module`, and on success reconciles the bidirectional
ownership relation through further `ConfigWriter.update_instructor` calls.
The route reads the module-level data from the global `config_loader`
snapshot (`cfg` below), which at entry equals the on-disk document
(`reload_config()` runs after every successful mutation); each writer call
itself reloads from disk, so the disk state threads through `acc`.  Return
values of the reconciliation writer calls are ignored by the route, hence
`.getD acc`. -/

structure UpdateModuleReq where
  name : Option Str := none
  description : Option Str := none
  semester : Option Int := none
  year : Option Int := none
  code : Option Str := none
  os_required : Option (List OSEntry) := none
  instructor_id : Option Str := none
deriving DecidableEq, Repr

/-- The `module_data` dict the route assembles from the request. -/
def UpdateModuleReq.toPatch (r : UpdateModuleReq) : ModulePatch :=
  { name := r.name, description := r.description, semester := r.semester
    year := r.year, code := r.code, os_required := r.os_required
    instructor_id := r.instructor_id, software := none }

/-- One iteration of the route's removal loop (app.py lines 469-475): when
the snapshot entry `q` lists the module and is not the new owner, strip it
and persist through `ConfigWriter.update_instructor`, ignoring the return
value. -/
def routeRemovalStep (mid : Str) (newInst : Option Str) (acc : Config)
    (q : Str × Instructor) : Config :=
  if decide (mid ∈ q.2.modules) &&
      (match newInst with | some b => decide (q.1 ≠ b) | none => true) then
    (updateInstructor acc q.1
      { modules := some (removeFirst q.2.modules mid) }).getD acc
  else acc

/-- `update_module` route handler.  `none` = the route answered with an
error; `some cfg'` = it answered success with `cfg'` persisted. -/
def updateModuleRoute (cfg : Config) (mid : Str) (req : UpdateModuleReq) :
    Option Config :=
  match updateModule cfg mid req.toPatch with
  | none => none
  | some cfg1 =>
    let newInst : Option Str := req.instructor_id
    let cfg2 := cfg.instructors.foldl (routeRemovalStep mid newInst) cfg1
    let cfg3 :=
      match newInst with
      | some b =>
        if b ≠ [] then
          match alookup cfg.instructors b with
          | some inst =>
            if mid ∉ inst.modules then
              (updateInstructor cfg2 b
                { modules := some (inst.modules ++ [mid]) }).getD cfg2
            else cfg2
          | none => cfg2
        else cfg2
      | none => cfg2
    some cfg3

/-- The net effect of one removal-loop iteration on the entry stored under
key `k` (used to characterize the loop). -/
def rmVal (mid b : Str) (k : Str) (i : Instructor) : Instructor :=
  if mid ∈ i.modules ∧ k ≠ b then
    { i with modules := removeFirst i.modules mid }
  else i

/-! ## Excel synchronization (`src/excel_sync.py`)

A worksheet is a list of data rows (the fixed header row and the styling are
presentation only); a cell holds either a string or an integer, matching
what `export_to_excel` writes and `iter_rows(values_only=True)` reads back.
`export_to_excel` clears each sheet's data rows before writing, so the
exported workbook is a pure function of the document. -/

inductive Cell where
  | s (v : Str)
  | i (v : Int)
deriving DecidableEq, Repr

/-- Python truthiness of a cell value. -/
def Cell.truthy : Cell → Bool
  | .s v => v ≠ []
  | .i n => n ≠ 0

/-- The string content of a cell (`row[k]` used in a string position; on
rows produced by `export_to_excel` string positions always hold strings). -/
def Cell.asStr : Cell → Str
  | .s v => v
  | .i n => intStr n

/-- `row[k] or ''`. -/
def Cell.orEmpty : Cell → Str
  | .s v => v
  | .i n => if n = 0 then [] else intStr n

/-- Digit parsing for `int(str)` (only the integer-cell branch is ever hit
on workbooks produced by `export_to_excel`). -/
def parseNat (s : Str) : Option Nat :=
  s.foldl (fun acc c =>
    match acc with
    | none => none
    | some n => if '0' ≤ c ∧ c ≤ '9' then some (10 * n + (c.toNat - '0'.toNat)) else none)
    (if s = [] then none else some 0)

/-- Python `int(x)` on a cell; `none` models the `ValueError` that the
`except` clause of `import_from_excel` turns into a failed import. -/
def Cell.toInt : Cell → Option Int
  | .i n => some n
  | .s v =>
    match v with
    | '-' :: rest => (parseNat rest).map (fun n => -(n : Int))
    | _ => (parseNat v).map (fun n => (n : Int))

/-- `row[k]`.  `import_from_excel` guards `row[6]` / `row[7]` of the module
sheet with `len(row) > k` (default `''`); for the other positions the rows
written by `export_to_excel` always have full width, so the default is
never read there. -/
def rowGet (r : List Cell) (k : Nat) : Cell := r.getD k (Cell.s [])

/-- The workbook: data rows of the five sheets. -/
structure Workbook where
  instructors : List (List Cell)
  modules : List (List Cell)
  software : List (List Cell)
  softwareByOS : List (List Cell)
  changeLog : List (List Cell)
deriving DecidableEq, Repr

/-- Names collected into `module_os_names` (export lines 247-253 and the
identical loop at import lines 422-428): the `name` of each mapping entry
when truthy, `str(entry)` for bare entries. -/
def moduleOsNames (l : List OSEntry) : List Str :=
  l.flatMap (fun e =>
    match e with
    | .dict n _ _ => if n ≠ [] then [n] else []
    | .raw s => [s])

/-- One element of the `os_required` display list (export lines 221-228):
`f"{name} ({note})".strip()` when a note (or, failing that, a description)
is present, the bare name otherwise; `str(entry)` for bare entries. -/
def osEntryDisplay : OSEntry → Str
  | .dict n t d =>
    let note := if t ≠ [] then t else d
    if note ≠ [] then pyStrip (n ++ (' ' :: '(' :: (note ++ [')']))) else n
  | .raw s => s

/-- Row of the Instructors sheet (export lines 202-211). -/
def instructorRow (iid : Str) (i : Instructor) : List Cell :=
  [.s iid, .s i.name, .s i.email, .s i.department,
   .s (joinSep commaSpace i.modules), .s i.last_review]

/-- Row of the Modules sheet (export lines 219-239). -/
def moduleRow (mid : Str) (m : Module) : List Cell :=
  [.s mid, .s m.code, .s m.name, .s m.description, .i m.year, .i m.semester,
   .s (joinSep commaSpace ((m.os_required.map osEntryDisplay).filter (fun o => o ≠ []))),
   .s m.instructor_id]

/-- `'Yes'` / `'No'`. -/
def yesNo (b : Bool) : Str := if b then yesStr else noStr

/-- The OS list written for a software row (export lines 255-257): the
module's `os_required` names are inherited for display when the software
has no explicit `os_supported` list. -/
def exportOsList (names : List Str) (sw : Software) : List Str :=
  if sw.os_supported = [] ∧ names ≠ [] then names else sw.os_supported

/-- Row of the Software sheet (export lines 259-270). -/
def softwareRow (mid : Str) (names : List Str) (sw : Software) : List Cell :=
  [.s mid, .s sw.name, .s sw.version, .s sw.purpose, .s sw.category,
   .s (yesNo sw.critical), .s (joinSep commaSpace (exportOsList names sw)),
   .s sw.notes, .s sw.last_verified, .s sw.verified_by]

/-- Insertion-ordered push into the `os_to_software` dict
(export lines 280-305). -/
def dictPush {α : Type} (d : List (Str × List α)) (k : Str) (v : α) :
    List (Str × List α) :=
  if hasKey d k then modifyVal d k (fun l => l ++ [v]) else d ++ [(k, [v])]

/-- Lexicographic (code-point) order on strings, as Python `sorted` uses
for the OS names. -/
def strLe : Str → Str → Bool
  | [], _ => true
  | _ :: _, [] => false
  | a :: as, b :: bs =>
    if a.toNat < b.toNat then true
    else if b.toNat < a.toNat then false
    else strLe as bs

/-- Stable insertion into a sorted list. -/
def insertBy (x : Str × List (List Cell)) :
    List (Str × List (List Cell)) → List (Str × List (List Cell))
  | [] => [x]
  | y :: ys => if strLe y.1 x.1 then y :: insertBy x ys else x :: y :: ys

/-- Stable sort by key (Python `sorted(os_to_software.keys())` drives the
emission order of the derived sheet). -/
def sortByKey (l : List (Str × List (List Cell))) :
    List (Str × List (List Cell)) :=
  l.foldl (fun acc x => insertBy x acc) []

/-- The derived Software-by-OS sheet (export lines 272-319). -/
def softwareByOSRows (modules : List (Str × Module)) : List (List Cell) :=
  let d := modules.foldl (fun d q =>
    (q.2.software.foldl (fun d sw =>
      (exportOsList (moduleOsNames q.2.os_required) sw).foldl (fun d osName =>
        dictPush d osName
          [Cell.s osName, .s sw.name, .s sw.version, .s sw.category,
           .s q.1, .s sw.purpose, .s (yesNo sw.critical), .s sw.notes]) d) d)) []
  (sortByKey d).flatMap (fun p => p.2)

/-- The ChangeLog sheet (export lines 321-343): one row per change pair for
updates, a single `*` row otherwise. -/
def changeLogRows (log : List AuditEntry) : List (List Cell) :=
  log.flatMap (fun e =>
    if e.action = updatedStr then
      e.changes.map (fun ch =>
        [Cell.s e.timestamp, .s e.module_id, .s e.software_name, .s e.action,
         .s e.actor, .s ch.1, .s ch.2.1, .s ch.2.2])
    else
      [[Cell.s e.timestamp, .s e.module_id, .s e.software_name, .s e.action,
        .s e.actor, .s ['*'], .s [], .s []]])

/-- `ExcelSyncManager.export_to_excel` (lines 184-353), as the workbook it
leaves on disk. -/
def exportToExcel (cfg : Config) : Workbook :=
  { instructors := cfg.instructors.map (fun q => instructorRow q.1 q.2)
    modules := cfg.modules.map (fun q => moduleRow q.1 q.2)
    software := cfg.modules.flatMap (fun q =>
      q.2.software.map (softwareRow q.1 (moduleOsNames q.2.os_required)))
    softwareByOS := softwareByOSRows cfg.modules
    changeLog := changeLogRows cfg.audit_log }

/-- Import of one Instructors-sheet row (import lines 373-384). -/
def importInstructorRow (d : List (Str × Instructor)) (row : List Cell) :
    List (Str × Instructor) :=
  if (rowGet row 0).truthy then
    let modulesStr := if (rowGet row 4).truthy then (rowGet row 4).asStr else []
    dictAssign d (rowGet row 0).asStr
      { name := (rowGet row 1).orEmpty
        email := (rowGet row 2).orEmpty
        department := (rowGet row 3).orEmpty
        modules := importSplit modulesStr
        last_review := (rowGet row 5).orEmpty }
  else d

/-- Import of one Modules-sheet row (import lines 390-409); `none` when
`int()` raises and the whole import fails. -/
def importModuleRow (d : List (Str × Module)) (row : List Cell) :
    Option (List (Str × Module)) :=
  if (rowGet row 0).truthy then
    let osRaw := rowGet row 6
    let osEntries : List OSEntry :=
      if osRaw.truthy then
        (importSplit osRaw.asStr).map (fun n => OSEntry.dict n [] [])
      else []
    let year? := if (rowGet row 4).truthy then (rowGet row 4).toInt else some 1
    let sem? := if (rowGet row 5).truthy then (rowGet row 5).toInt else some 1
    match year?, sem? with
    | some y, some sem =>
      some (dictAssign d (rowGet row 0).asStr
        { code := (rowGet row 1).orEmpty
          name := (rowGet row 2).orEmpty
          description := (rowGet row 3).orEmpty
          year := y
          semester := sem
          os_required := osEntries
          instructor_id := (rowGet row 7).orEmpty
          software := [] })
    | _, _ => none
  else some d

/-- Import of one Software-sheet row (import lines 414-442): rows whose
module id is unknown are skipped; an empty OS column falls back to the
(already imported) module's required-OS names. -/
def importSoftwareRow (d : List (Str × Module)) (row : List Cell) :
    List (Str × Module) :=
  if (rowGet row 0).truthy ∧ (rowGet row 1).truthy then
    let mid := (rowGet row 0).asStr
    match alookup d mid with
    | none => d
    | some m =>
      let osStr := if (rowGet row 6).truthy then (rowGet row 6).asStr else []
      let osSup :=
        if osStr ≠ [] then importSplit osStr else []
      let osSup :=
        if osSup = [] then moduleOsNames m.os_required else osSup
      let sw : Software :=
        { name := (rowGet row 1).asStr
          version := (rowGet row 2).orEmpty
          purpose := (rowGet row 3).orEmpty
          category := (rowGet row 4).orEmpty
          critical :=
            if (rowGet row 5).truthy then rowGet row 5 = Cell.s yesStr
            else false
          os_supported := osSup
          notes := (rowGet row 7).orEmpty
          last_verified := (rowGet row 8).orEmpty
          verified_by := (rowGet row 9).orEmpty }
      modifyVal d mid (fun mm => { mm with software := mm.software ++ [sw] })
  else d

/-- `ExcelSyncManager.import_from_excel` (lines 355-459): rebuilds the
`instructors` and `modules` sections from the sheets, leaves every other
top-level section of the current document as it is, and persists; the
ChangeLog and Software-by-OS sheets are never read.  `none` models the
`except` branch (failed import, nothing persisted). -/
def importFromExcel (wb : Workbook) (cfg : Config) : Option Config :=
  let insts := wb.instructors.foldl importInstructorRow []
  match wb.modules.foldlM importModuleRow [] with
  | none => none
  | some mods0 =>
    let mods := wb.software.foldl importSoftwareRow mods0
    some { cfg with instructors := insts, modules := mods }

/-- Export immediately followed by import, with no intervening writes. -/
def roundTrip (cfg : Config) : Option Config :=
  importFromExcel (exportToExcel cfg) cfg

/-! ## Round-trip characterization

The exact value `roundTrip` produces on well-formed documents. -/

/-- A string that survives the comma-join / comma-split / strip cycle:
non-empty, comma-free and already stripped. -/
def goodStr (s : Str) : Prop := s ≠ [] ∧ ',' ∉ s ∧ pyStrip s = s

instance : DecidablePred goodStr := fun s => by
  unfold goodStr; infer_instance

/-- Well-formedness of an `os_required` entry for the round trip. -/
def goodOSEntry : OSEntry → Prop
  | .dict n t d => goodStr n ∧ ',' ∉ t ∧ ',' ∉ d
  | .raw s => goodStr s

instance : DecidablePred goodOSEntry := fun e => by
  cases e <;> (unfold goodOSEntry; infer_instance)

/-- Documents on which the tabular projection loses nothing but the OS
notes and the OS-inheritance distinction: unique non-empty keys, non-zero
integer year/semester, and join-stable strings in every comma-joined
position. -/
def WellFormed (cfg : Config) : Prop :=
  (cfg.instructors.map Prod.fst).Nodup ∧
  (cfg.modules.map Prod.fst).Nodup ∧
  (∀ q ∈ cfg.instructors, q.1 ≠ [] ∧ ∀ mref ∈ q.2.modules, goodStr mref) ∧
  (∀ q ∈ cfg.modules, q.1 ≠ [] ∧ q.2.year ≠ 0 ∧ q.2.semester ≠ 0 ∧
    (∀ e ∈ q.2.os_required, goodOSEntry e) ∧
    (∀ sw ∈ q.2.software, sw.name ≠ [] ∧ ∀ o ∈ sw.os_supported, goodStr o))

instance : DecidablePred WellFormed := fun cfg => by
  unfold WellFormed; infer_instance

/-- What one `os_required` entry becomes after the round trip: the display
string — with any note folded into the name — re-imported as a bare
`{'name': ...}` mapping. -/
def foldOSEntry (e : OSEntry) : OSEntry := .dict (osEntryDisplay e) [] []

/-- What one software entry becomes after the round trip: an empty
`os_supported` list is materialized from the module's required-OS names
(the documented display-inheritance fallback). -/
def idealizeSoftware (names : List Str) (sw : Software) : Software :=
  { sw with os_supported := if sw.os_supported = [] then names else sw.os_supported }

/-- A module as it stands right after the Modules sheet was parsed and
before the Software sheet is replayed into it. -/
def importedModule (m : Module) : Module :=
  { m with os_required := m.os_required.map foldOSEntry, software := [] }

/-- What one module becomes after the round trip. -/
def idealizeModule (m : Module) : Module :=
  { m with
    os_required := m.os_required.map foldOSEntry
    software := m.software.map (idealizeSoftware (moduleOsNames m.os_required)) }

/-- What the whole document becomes after the round trip. -/
def idealize (cfg : Config) : Config :=
  { cfg with modules := cfg.modules.map (fun q => (q.1, idealizeModule q.2)) }

/-! ## Concrete sample data (used by counterexamples and witnesses) -/

def dateA : Str := "2025-01-01".toList

def dateB : Str := "2025-01-02".toList

def p1Key : Str := "p1".toList

def p2Key : Str := "p2".toList

def p3Key : Str := "p3".toList

def m1Key : Str := "m1".toList

def swVSCode : Software :=
  { name := "VSCode".toList, version := "1.0".toList, purpose := "IDE".toList
    category := "dev".toList, critical := true, os_supported := []
    notes := [], last_verified := "2024-05-01".toList
    verified_by := "tech".toList }

def instAnn : Instructor :=
  { name := "Ann".toList, email := "a@x.edu".toList
    department := "CS".toList, modules := [m1Key]
    last_review := "2024-01-01".toList }

def instBob : Instructor :=
  { name := "Bob".toList, email := "b@x.edu".toList
    department := "CS".toList, modules := [], last_review := [] }

def instCarol : Instructor :=
  { name := "Carol".toList, email := "c@x.edu".toList
    department := "Math".toList, modules := [], last_review := [] }

/-- A module whose `os_required` entry carries a note. -/
def modCS101 : Module :=
  { code := "CS101".toList, name := "Intro".toList, description := "d".toList
    year := 1, semester := 2
    os_required := [OSEntry.dict ("Windows".toList) ("lab only".toList) []]
    instructor_id := p1Key, software := [] }

/-- Base sample document: `p1` owns `m1`, `p2` has no modules. -/
def cfgBase : Config :=
  { instructors := [(p1Key, instAnn), (p2Key, instBob)]
    modules := [(m1Key, modCS101)]
    audit_log := [], email_config := "e".toList, report_config := "r".toList }

/-- A sample audit entry already present in the log. -/
def auditEx : AuditEntry :=
  { timestamp := "2024-12-01T10:00:00".toList, module_id := m1Key
    software_name := [], action := updatedStr, actor := "web".toList
    changes := [("name".toList, "Old".toList, "New".toList)] }

/-- `cfgBase` with a non-empty audit log. -/
def cfgAudit : Config := { cfgBase with audit_log := [auditEx] }

/-- The patch `{'department': 'Math'}`. -/
def deptPatch : InstructorPatch := { department := some ("Math".toList) }

/-- A document whose instructor lists `m1` twice. -/
def cfgDup : Config :=
  { cfgBase with
    instructors := [(p1Key, { instAnn with modules := [m1Key, m1Key] })] }

/-- `instCarol` with a caller-supplied `last_review` (to be overwritten). -/
def instCarolOld : Instructor :=
  { instCarol with last_review := "1999-01-01".toList }

/-- An instructor reusing Ann's email address. -/
def instDupEmail : Instructor :=
  { instCarol with email := "a@x.edu".toList }

/-- A writer mutation used to drive the persistence machine. -/
def opAddCarol : Config → Option Config :=
  fun c => addInstructor dateA c p3Key instCarol

/-- `cfgBase` after `opAddCarol` succeeded. -/
def cfgWithCarol : Config :=
  { cfgBase with
    instructors := cfgBase.instructors ++
      [(p3Key, { instCarol with last_review := dateA })] }

/-- File system holding `cfgBase` and no backups yet. -/
def fsBase : FS := { primary := some cfgBase, backup := none, tsBackup := none }

/-- `fsBase` after `_backup_config`. -/
def fsBk : FS := { fsBase with backup := some cfgBase, tsBackup := some cfgBase }

/-- `fsBk` after `open(config_path, 'w')` truncated the primary file. -/
def fsTrunc : FS := { fsBk with primary := none }

/-- The final state: primary rewritten with the mutated document. -/
def fsDone : FS := { fsBk with primary := some cfgWithCarol }

/-- A software entry with no `name` key. -/
def rawSwNoName : RawSoftware := { name := none, purpose := some ("IDE".toList) }

/-- A module whose only software entry has no `name`. -/
def rawModX : RawModule :=
  { name := some ("Intro".toList), software := some [rawSwNoName] }

/-- Validator input: a module whose first software entry has no `name`. -/
def rawNoSwName : RawConfig :=
  { instructors := some [], modules := some [(m1Key, rawModX)] }

/-- Validator input: no `modules` section at all. -/
def rawNoModules : RawConfig :=
  { instructors := some [], modules := none }

/-- The empty workbook (all sheets empty). -/
def wbEmpty : Workbook :=
  { instructors := [], modules := [], software := [], softwareByOS := []
    changeLog := [] }

/-! ## Association-list lemmas -/

theorem alookup_cons {α : Type} (a : Str) (v : α) (t : List (Str × α))
    (k : Str) :
    alookup ((a, v) :: t) k = if a = k then some v else alookup t k := rfl

theorem modifyVal_cons {α : Type} (a : Str) (v : α) (t : List (Str × α))
    (k : Str) (f : α → α) :
    modifyVal ((a, v) :: t) k f
      = (if a = k then (a, f v) else (a, v)) :: modifyVal t k f := rfl

theorem alookup_modifyVal_self {α : Type} (l : List (Str × α)) (k : Str)
    (f : α → α) : alookup (modifyVal l k f) k = (alookup l k).map f := by
  induction l with
  | nil => rfl
  | cons p t ih =>
    obtain ⟨a, v⟩ := p
    by_cases h : a = k <;>
      simp [modifyVal_cons, alookup_cons, h, ih]

theorem alookup_modifyVal_ne {α : Type} (l : List (Str × α)) (k k' : Str)
    (f : α → α) (h : k ≠ k') :
    alookup (modifyVal l k f) k' = alookup l k' := by
  induction l with
  | nil => rfl
  | cons p t ih =>
    obtain ⟨a, v⟩ := p
    by_cases hp : a = k
    · subst hp
      simp [modifyVal_cons, alookup_cons, h, ih]
    · by_cases hp' : a = k'
      · subst hp'
        have hk : ¬ (k = a) := fun hh => hp hh.symm
        simp [modifyVal_cons, alookup_cons, hp, hk, ih]
      · simp [modifyVal_cons, alookup_cons, hp, hp', ih]

theorem keys_modifyVal {α : Type} (l : List (Str × α)) (k : Str) (f : α → α) :
    (modifyVal l k f).map Prod.fst = l.map Prod.fst := by
  induction l with
  | nil => rfl
  | cons p t ih =>
    obtain ⟨a, v⟩ := p
    by_cases h : a = k <;> simp [modifyVal_cons, h, ih]

theorem alookup_eq_none_of_not_mem {α : Type} (l : List (Str × α)) (k : Str)
    (h : k ∉ l.map Prod.fst) : alookup l k = none := by
  induction l with
  | nil => rfl
  | cons p t ih =>
    obtain ⟨a, v⟩ := p
    simp only [List.map_cons, List.mem_cons] at h
    push_neg at h
    have hak : ¬ (a = k) := fun hh => h.1 hh.symm
    simp [alookup_cons, hak, ih h.2]

theorem alookup_isSome_of_mem {α : Type} (l : List (Str × α)) (k : Str)
    (h : k ∈ l.map Prod.fst) : (alookup l k).isSome = true := by
  induction l with
  | nil => simp at h
  | cons p t ih =>
    obtain ⟨a, v⟩ := p
    by_cases hp : a = k
    · simp [alookup_cons, hp]
    · simp only [List.map_cons, List.mem_cons] at h
      rcases h with h | h
      · exact absurd h.symm hp
      · simpa [alookup_cons, hp] using ih h

theorem mem_of_alookup_eq_some {α : Type} (l : List (Str × α)) (k : Str)
    (v : α) (h : alookup l k = some v) : (k, v) ∈ l := by
  induction l with
  | nil => simp [alookup] at h
  | cons p t ih =>
    obtain ⟨a, w⟩ := p
    by_cases hp : a = k
    · rw [alookup_cons, if_pos hp] at h
      cases h
      subst hp
      exact List.mem_cons_self _ _
    · rw [alookup_cons, if_neg hp] at h
      exact List.mem_cons_of_mem _ (ih h)

theorem modifyVal_append {α : Type} (l₁ l₂ : List (Str × α)) (k : Str)
    (f : α → α) :
    modifyVal (l₁ ++ l₂) k f = modifyVal l₁ k f ++ modifyVal l₂ k f := by
  simp [modifyVal]

theorem modifyVal_of_not_mem {α : Type} (l : List (Str × α)) (k : Str)
    (f : α → α) (h : k ∉ l.map Prod.fst) : modifyVal l k f = l := by
  induction l with
  | nil => rfl
  | cons p t ih =>
    obtain ⟨a, v⟩ := p
    simp only [List.map_cons, List.mem_cons] at h
    push_neg at h
    rw [modifyVal_cons, if_neg (fun hh : a = k => h.1 hh.symm), ih h.2]

theorem modifyVal_modifyVal {α : Type} (l : List (Str × α)) (k : Str)
    (f g : α → α) :
    modifyVal (modifyVal l k f) k g = modifyVal l k (fun x => g (f x)) := by
  induction l with
  | nil => rfl
  | cons p t ih =>
    obtain ⟨a, v⟩ := p
    by_cases h : a = k <;>
      simp [modifyVal_cons, h, ih]

theorem alookup_append_right {α : Type} (l₁ l₂ : List (Str × α)) (k : Str)
    (h : alookup l₁ k = none) : alookup (l₁ ++ l₂) k = alookup l₂ k := by
  induction l₁ with
  | nil => rfl
  | cons p t ih =>
    obtain ⟨a, v⟩ := p
    by_cases hp : a = k
    · rw [alookup_cons, if_pos hp] at h
      cases h
    · rw [alookup_cons, if_neg hp] at h
      rw [List.cons_append, alookup_cons, if_neg hp]
      exact ih h

theorem alookup_map_kv {α : Type} (g : Str → α → α) (l : List (Str × α))
    (k : Str) :
    alookup (l.map (fun p => (p.1, g p.1 p.2))) k = (alookup l k).map (g k) := by
  induction l with
  | nil => rfl
  | cons p t ih =>
    obtain ⟨a, v⟩ := p
    by_cases hp : a = k
    · subst hp
      simp [alookup_cons]
    · simpa [alookup_cons, hp] using ih

theorem alookup_map_snd {α : Type} (f : α → α) (l : List (Str × α)) (k : Str) :
    alookup (l.map (fun p => (p.1, f p.2))) k = (alookup l k).map f := by
  induction l with
  | nil => rfl
  | cons p t ih =>
    obtain ⟨a, v⟩ := p
    by_cases hp : a = k
    · subst hp
      simp [alookup_cons]
    · simpa [alookup_cons, hp] using ih

theorem not_mem_removeFirst (l : List Str) (x : Str) (h : l.count x ≤ 1) :
    x ∉ removeFirst l x := by
  induction l with
  | nil => simp [removeFirst]
  | cons y ys ih =>
    by_cases hy : y = x
    · rw [← hy] at h ⊢
      simp only [removeFirst, if_pos rfl]
      rw [List.count_cons_self] at h
      have h0 : ys.count y = 0 := by omega
      exact List.count_eq_zero.mp h0
    · simp only [removeFirst, if_neg hy]
      rw [List.count_cons_of_ne (fun hh => hy hh.symm)] at h
      intro hmem
      rcases List.mem_cons.mp hmem with hh | hh
      · exact hy hh.symm
      · exact ih h hh

/-! ## Claim C2 -/

/-- C2 (counterexample): a successful writer update leaves the document's
audit log exactly as it was — no audit entry describing the change (and no
field-level old/new pairs) is ever appended by `ConfigWriter`. -/
theorem C2_counterexample :
    (updateInstructor cfgAudit p1Key deptPatch).isSome = true ∧
    (updateInstructor cfgAudit p1Key deptPatch).map Config.audit_log
      = some cfgAudit.audit_log ∧
    cfgAudit.audit_log.length = 1 := by
  refine ⟨rfl, rfl, rfl⟩

/-- C2 (amended): no `ConfigWriter` mutation appends an audit entry; every
successful add/update/delete of an instructor, module or software persists
a document whose `audit_log` equals the previous one. -/
theorem C2_no_audit_append :
    (∀ (t : Str) (cfg : Config) (iid : Str) (d : Instructor) (cfg' : Config),
      addInstructor t cfg iid d = some cfg' → cfg'.audit_log = cfg.audit_log) ∧
    (∀ (cfg : Config) (iid : Str) (p : InstructorPatch) (cfg' : Config),
      updateInstructor cfg iid p = some cfg' → cfg'.audit_log = cfg.audit_log) ∧
    (∀ (cfg : Config) (iid : Str) (cfg' : Config),
      deleteInstructor cfg iid = some cfg' → cfg'.audit_log = cfg.audit_log) ∧
    (∀ (cfg : Config) (mid : Str) (d : Module) (cfg' : Config),
      addModule cfg mid d = some cfg' → cfg'.audit_log = cfg.audit_log) ∧
    (∀ (cfg : Config) (mid : Str) (p : ModulePatch) (cfg' : Config),
      updateModule cfg mid p = some cfg' → cfg'.audit_log = cfg.audit_log) ∧
    (∀ (cfg : Config) (mid : Str) (cfg' : Config),
      deleteModule cfg mid = some cfg' → cfg'.audit_log = cfg.audit_log) ∧
    (∀ (t : Str) (cfg : Config) (mid : Str) (d : Software) (cfg' : Config),
      addSoftwareToModule t cfg mid d = some cfg' →
        cfg'.audit_log = cfg.audit_log) ∧
    (∀ (cfg : Config) (mid nm : Str) (p : SoftwarePatch) (cfg' : Config),
      updateSoftwareInModule cfg mid nm p = some cfg' →
        cfg'.audit_log = cfg.audit_log) ∧
    (∀ (cfg : Config) (mid nm : Str) (cfg' : Config),
      deleteSoftwareFromModule cfg mid nm = some cfg' →
        cfg'.audit_log = cfg.audit_log) := by
  refine ⟨?_, ?_, ?_, ?_, ?_, ?_, ?_, ?_, ?_⟩
  · intro t cfg iid d cfg' h
    unfold addInstructor at h
    repeat' split at h
    all_goals cases h
    all_goals rfl
  · intro cfg iid p cfg' h
    unfold updateInstructor at h
    repeat' split at h
    all_goals cases h
    all_goals rfl
  · intro cfg iid cfg' h
    unfold deleteInstructor at h
    repeat' split at h
    all_goals cases h
    all_goals rfl
  · intro cfg mid d cfg' h
    unfold addModule at h
    repeat' split at h
    all_goals cases h
    all_goals rfl
  · intro cfg mid p cfg' h
    unfold updateModule at h
    repeat' split at h
    all_goals cases h
    all_goals rfl
  · intro cfg mid cfg' h
    unfold deleteModule at h
    repeat' split at h
    all_goals cases h
    all_goals rfl
  · intro t cfg mid d cfg' h
    unfold addSoftwareToModule at h
    repeat' split at h
    all_goals cases h
    all_goals rfl
  · intro cfg mid nm p cfg' h
    unfold updateSoftwareInModule at h
    repeat' split at h
    all_goals cases h
    all_goals rfl
  · intro cfg mid nm cfg' h
    unfold deleteSoftwareFromModule at h
    repeat' split at h
    all_goals cases h
    all_goals rfl

/-- C2 (witness). -/
theorem C2_no_audit_append_witness :
    ((updateInstructor cfgAudit p1Key deptPatch).getD cfgAudit).audit_log
      = cfgAudit.audit_log :=
  C2_no_audit_append.2.1 cfgAudit p1Key deptPatch _ rfl

/-! ## Claim C3 -/

/-- C3 (counterexample): `_save_config` truncates the primary file in place
before the new content is written: in the trace of a successful mutation
there is a strictly earlier state than the final one in which the primary
file no longer holds the original document (no write-to-temporary-then-
rename is performed). -/
theorem C3_counterexample :
    writerStates opAddCarol fsBase = [fsBase, fsBk, fsTrunc, fsDone] ∧
    fsTrunc ≠ fsDone ∧
    fsTrunc.primary ≠ fsBase.primary ∧
    fsBase.primary = some cfgBase := by
  refine ⟨rfl, by decide, by decide, rfl⟩

/-- C3 (amended): a writer mutation copies the current document into the
rolling and timestamped backups before mutating, then truncates the primary
file in place and rewrites it; the previous document survives a failed
write only in the backups, the primary passes through a truncated state
before the new content is fully written. -/
theorem C3_save_truncates (cfg new : Config) (fs : FS)
    (op : Config → Option Config)
    (hfs : fs.primary = some cfg) (hop : op cfg = some new) :
    writerStates op fs =
      [fs, { fs with backup := some cfg, tsBackup := some cfg },
       { primary := none, backup := some cfg, tsBackup := some cfg },
       { primary := some new, backup := some cfg, tsBackup := some cfg }] := by
  obtain ⟨p, b, tb⟩ := fs
  cases hfs
  unfold writerStates
  simp [hop]

/-- C3 (witness). -/
theorem C3_save_truncates_witness :
    writerStates opAddCarol fsBase =
      [fsBase, { fsBase with backup := some cfgBase, tsBackup := some cfgBase },
       { primary := none, backup := some cfgBase, tsBackup := some cfgBase },
       { primary := some cfgWithCarol, backup := some cfgBase,
         tsBackup := some cfgBase }] :=
  C3_save_truncates cfgBase cfgWithCarol fsBase opAddCarol rfl (by decide)

/-! ## Claim C5 -/

/-- C5 (counterexample): when an instructor's module list contains the id
twice, `delete_module` (which uses `list.remove`) strips only the first
occurrence: the deletion succeeds yet `get_instructor_modules` still
returns the deleted id. -/
theorem C5_counterexample :
    (deleteModule cfgDup m1Key).isSome = true ∧
    (deleteModule cfgDup m1Key).map (fun c => getInstructorModules c p1Key)
      = some (some [m1Key]) := by
  refine ⟨rfl, rfl⟩

/-- C5 (amended): deleting an existing module strips its id from every
instructor's module list — provided no single list mentions the id more
than once (Python's `list.remove` removes only the first occurrence) — so
`get_instructor_modules` never returns the deleted id afterwards. -/
theorem C5_delete_cascade (cfg : Config) (mid : Str) (m : Module)
    (hm : alookup cfg.modules mid = some m)
    (hcount : ∀ q ∈ cfg.instructors, q.2.modules.count mid ≤ 1) :
    ∃ cfg', deleteModule cfg mid = some cfg' ∧
      ∀ iid l, getInstructorModules cfg' iid = some l → mid ∉ l := by
  have hk : hasKey cfg.modules mid = true := by simp [hasKey, hm]
  have hdel : deleteModule cfg mid = some
      { cfg with
        modules := cfg.modules.filter (fun q => decide (q.1 ≠ mid))
        instructors := cfg.instructors.map (fun q => (q.1, stripModuleRef mid q.2)) } := by
    unfold deleteModule
    simp [hk]
  refine ⟨_, hdel, ?_⟩
  intro iid l hl
  unfold getInstructorModules getInstructor at hl
  rw [alookup_map_snd] at hl
  cases hfind : alookup cfg.instructors iid with
  | none => rw [hfind] at hl; cases hl
  | some inst =>
    rw [hfind] at hl
    cases hl
    have hmem := mem_of_alookup_eq_some _ _ _ hfind
    have hc := hcount _ hmem
    unfold stripModuleRef
    by_cases hin : mid ∈ inst.modules
    · rw [if_pos hin]
      exact not_mem_removeFirst _ _ hc
    · rw [if_neg hin]
      exact hin

/-- C5 (witness). -/
theorem C5_delete_cascade_witness :
    ∃ cfg', deleteModule cfgBase m1Key = some cfg' ∧
      ∀ iid l, getInstructorModules cfg' iid = some l → m1Key ∉ l :=
  C5_delete_cascade cfgBase m1Key modCS101 rfl (by decide)

/-! ## Claim C6 -/

/-- C6: adding an instructor whose email is already used by a present
instructor fails, and no state in the persistence trace ever alters the
primary document — the rejection happens before `_save_config` runs. -/
theorem C6_duplicate_email (today : Str) (cfg : Config) (iid : Str)
    (d : Instructor) (fs : FS)
    (hdup : ∃ q ∈ cfg.instructors, q.2.email = d.email)
    (hfs : fs.primary = some cfg) :
    addInstructor today cfg iid d = none ∧
    ∀ s ∈ writerStates (fun c => addInstructor today c iid d) fs,
      s.primary = some cfg := by
  have hnone : addInstructor today cfg iid d = none := by
    unfold addInstructor
    by_cases hk : hasKey cfg.instructors iid
    · rw [if_pos hk]
    · rw [if_neg hk]
      obtain ⟨q, hq, he⟩ := hdup
      have hany : (cfg.instructors.any
          (fun q => decide (q.2.email = d.email))) = true :=
        List.any_eq_true.mpr ⟨q, hq, by simp [he]⟩
      rw [if_pos hany]
  refine ⟨hnone, ?_⟩
  intro s hs
  obtain ⟨p, b, tb⟩ := fs
  cases hfs
  have hw : writerStates (fun c => addInstructor today c iid d)
      ⟨some cfg, b, tb⟩ =
      [⟨some cfg, b, tb⟩, ⟨some cfg, some cfg, some cfg⟩] := by
    unfold writerStates
    simp [hnone]
  rw [hw] at hs
  simp only [List.mem_cons, List.not_mem_nil, or_false] at hs
  rcases hs with rfl | rfl <;> rfl

/-- C6 (witness). -/
theorem C6_duplicate_email_witness :
    addInstructor dateA cfgBase p3Key instDupEmail = none ∧
    ∀ s ∈ writerStates (fun c => addInstructor dateA c p3Key instDupEmail)
        fsBase, s.primary = some cfgBase :=
  C6_duplicate_email dateA cfgBase p3Key instDupEmail fsBase
    ⟨(p1Key, instAnn), by decide, by decide⟩ rfl

/-! ## Claim C8 -/

/-- C8: on a module whose software list is empty, a first add-software
succeeds, a second one with the same name fails, and the persisted module's
software list has length exactly one — software names are unique within
their owning module. -/
theorem C8_software_name_unique (t1 t2 : Str) (cfg : Config) (mid : Str)
    (sw1 sw2 : Software) (m : Module)
    (hm : alookup cfg.modules mid = some m) (h0 : m.software = [])
    (hname : sw2.name = sw1.name) :
    ∃ cfg1, addSoftwareToModule t1 cfg mid sw1 = some cfg1 ∧
      (alookup cfg1.modules mid).map (fun mm => mm.software.length) = some 1 ∧
      addSoftwareToModule t2 cfg1 mid sw2 = none := by
  have h1 : addSoftwareToModule t1 cfg mid sw1 = some
      { cfg with modules := modifyVal cfg.modules mid (fun mm =>
          { mm with software := mm.software ++
            [{ sw1 with last_verified := t1 }] }) } := by
    unfold addSoftwareToModule
    rw [hm]
    simp [h0]
  refine ⟨_, h1, ?_, ?_⟩
  · simp only
    rw [alookup_modifyVal_self, hm]
    simp [h0]
  · unfold addSoftwareToModule
    simp only
    rw [alookup_modifyVal_self, hm]
    simp [h0, hname]

/-- C8 (witness): the spec's concrete VSCode scenario. -/
theorem C8_software_name_unique_witness :
    ∃ cfg1, addSoftwareToModule dateA cfgBase m1Key swVSCode = some cfg1 ∧
      (alookup cfg1.modules m1Key).map (fun mm => mm.software.length)
        = some 1 ∧
      addSoftwareToModule dateB cfg1 m1Key
        { swVSCode with purpose := "dup".toList } = none :=
  C8_software_name_unique dateA dateB cfgBase m1Key swVSCode
    { swVSCode with purpose := "dup".toList } modCS101 rfl rfl rfl

/-! ## Claim C9 -/

/-- C9: a successful tabular import replaces only the `instructors` and
`modules` sections; `audit_log`, `email_config` and `report_config` are
carried over unchanged into the written document. -/
theorem C9_import_frame (wb : Workbook) (cfg cfg' : Config)
    (h : importFromExcel wb cfg = some cfg') :
    cfg'.audit_log = cfg.audit_log ∧
    cfg'.email_config = cfg.email_config ∧
    cfg'.report_config = cfg.report_config := by
  unfold importFromExcel at h
  split at h
  · cases h
  · cases h
    exact ⟨rfl, rfl, rfl⟩

/-- C9 (witness). -/
theorem C9_import_frame_witness :
    ∃ cfg', importFromExcel wbEmpty cfgAudit = some cfg' ∧
      cfg'.audit_log = cfgAudit.audit_log ∧
      cfg'.email_config = cfgAudit.email_config ∧
      cfg'.report_config = cfgAudit.report_config :=
  ⟨{ cfgAudit with instructors := [], modules := [] }, rfl,
    C9_import_frame wbEmpty cfgAudit _ rfl⟩

/-! ## Claim C10 -/

/-- C10: a successful add-instructor stores the record with `last_review`
set to the current date, and a successful add-software appends the record
with `last_verified` set to the current date — in both cases overwriting
whatever the caller supplied in that field. -/
theorem C10_timestamps :
    (∀ (today : Str) (cfg : Config) (iid : Str) (d : Instructor)
        (cfg' : Config),
      addInstructor today cfg iid d = some cfg' →
        alookup cfg'.instructors iid = some { d with last_review := today }) ∧
    (∀ (today : Str) (cfg : Config) (mid : Str) (d : Software)
        (cfg' : Config) (m : Module),
      addSoftwareToModule today cfg mid d = some cfg' →
        alookup cfg.modules mid = some m →
        alookup cfg'.modules mid = some { m with software :=
          m.software ++ [{ d with last_verified := today }] }) := by
  constructor
  · intro today cfg iid d cfg' h
    unfold addInstructor at h
    by_cases hk : hasKey cfg.instructors iid
    · rw [if_pos hk] at h; cases h
    · rw [if_neg hk] at h
      by_cases ha : (cfg.instructors.any
          (fun q => decide (q.2.email = d.email))) = true
      · rw [if_pos ha] at h; cases h
      · rw [if_neg ha] at h
        cases h
        have hnone : alookup cfg.instructors iid = none := by
          unfold hasKey at hk
          exact Option.not_isSome_iff_eq_none.mp (by simpa using hk)
        simp only
        rw [alookup_append_right _ _ _ hnone, alookup_cons, if_pos rfl]
  · intro today cfg mid d cfg' m h hm
    unfold addSoftwareToModule at h
    rw [hm] at h
    dsimp only at h
    by_cases ha : (m.software.any (fun sw => decide (sw.name = d.name))) = true
    · rw [if_pos ha] at h; cases h
    · rw [if_neg ha] at h
      cases h
      simp only
      rw [alookup_modifyVal_self, hm]
      rfl

/-! ## Claim C4 -/

theorem updateInstructor_modules (cfg : Config) (iid : Str) (ms : List Str) :
    updateInstructor cfg iid { modules := some ms } =
      if hasKey cfg.instructors iid then
        some { cfg with
               instructors := modifyVal cfg.instructors iid
                 (fun i => { i with modules := ms }) }
      else none := by
  unfold updateInstructor
  by_cases hk : hasKey cfg.instructors iid <;> simp [hk] <;> rfl

theorem mem_modifyVal_ne {α : Type} (l : List (Str × α)) (k : Str) (f : α → α)
    (q : Str × α) (hq : q ∈ modifyVal l k f) (hne : q.1 ≠ k) : q ∈ l := by
  unfold modifyVal at hq
  obtain ⟨p, hp, he⟩ := List.mem_map.mp hq
  by_cases hpk : p.1 = k
  · rw [if_pos hpk] at he
    exact absurd (by rw [← he]; exact hpk) hne
  · rw [if_neg hpk] at he
    exact he ▸ hp

theorem route_loop (mid b : Str) :
    ∀ (l pre : List (Str × Instructor)) (base : Config),
      base.instructors = pre ++ l →
      ((pre ++ l).map Prod.fst).Nodup →
      l.foldl (routeRemovalStep mid (some b)) base =
        { base with instructors :=
            pre ++ l.map (fun q => (q.1, rmVal mid b q.1 q.2)) } := by
  intro l
  induction l with
  | nil =>
    intro pre base hbase _
    simp only [List.foldl_nil, List.map_nil, List.append_nil]
    rw [List.append_nil] at hbase
    rw [← hbase]
  | cons q l' ih =>
    intro pre base hbase hnd
    obtain ⟨a, v⟩ := q
    have hnd' : (pre.map Prod.fst ++ a :: l'.map Prod.fst).Nodup := by
      simpa using hnd
    obtain ⟨hnp, hnc, hdisj⟩ := List.nodup_append.mp hnd'
    have hnotpre : a ∉ pre.map Prod.fst :=
      fun hmem => hdisj hmem (List.mem_cons_self _ _)
    have hnotl' : a ∉ l'.map Prod.fst := (List.nodup_cons.mp hnc).1
    have hamem : a ∈ base.instructors.map Prod.fst := by
      rw [hbase, List.map_append, List.map_cons]
      exact List.mem_append_right _ (List.mem_cons_self _ _)
    rw [List.foldl_cons]
    by_cases hcond : mid ∈ v.modules ∧ a ≠ b
    · have hstep : routeRemovalStep mid (some b) base (a, v) =
          { base with instructors :=
              pre ++ (a, rmVal mid b a v) ::  l' } := by
        unfold routeRemovalStep
        dsimp only
        rw [if_pos (show (decide (mid ∈ v.modules) && decide (a ≠ b)) = true by
          simp [hcond.1, hcond.2])]
        have hkk : hasKey base.instructors a = true :=
          alookup_isSome_of_mem _ _ hamem
        rw [updateInstructor_modules, if_pos hkk, Option.getD_some]
        have hmv : modifyVal base.instructors a
            (fun i => { i with modules := removeFirst v.modules mid }) =
            pre ++ (a, rmVal mid b a v) :: l' := by
          rw [hbase, modifyVal_append, modifyVal_cons, if_pos rfl,
            modifyVal_of_not_mem _ _ _ hnotpre,
            modifyVal_of_not_mem _ _ _ hnotl']
          unfold rmVal
          rw [if_pos hcond]
        rw [hmv]
      rw [hstep]
      have hmain := ih (pre ++ [(a, rmVal mid b a v)])
        { base with instructors := pre ++ (a, rmVal mid b a v) :: l' }
        (by simp) (by
          have hkey : ((pre ++ [(a, rmVal mid b a v)]) ++ l').map Prod.fst
              = pre.map Prod.fst ++ a :: l'.map Prod.fst := by simp
          rw [hkey]; exact hnd')
      rw [hmain]
      simp
    · have hstep : routeRemovalStep mid (some b) base (a, v) = base := by
        unfold routeRemovalStep
        dsimp only
        rw [if_neg (show ¬ (decide (mid ∈ v.modules) && decide (a ≠ b)) = true by
          simp only [Bool.and_eq_true, decide_eq_true_eq]
          exact fun hc => hcond ⟨hc.1, hc.2⟩)]
      rw [hstep]
      have hrm : rmVal mid b a v = v := by rw [rmVal, if_neg hcond]
      have hmain := ih (pre ++ [(a, v)]) base
        (by rw [hbase]; simp) (by
          have hkey : ((pre ++ [(a, v)]) ++ l').map Prod.fst
              = pre.map Prod.fst ++ a :: l'.map Prod.fst := by simp
          rw [hkey]; exact hnd')
      rw [hmain]
      simp [hrm]

/-- C4: in any state where module M is owned by instructor A, the
`update_module` route called with `{'instructor_id': B}` (for an existing
instructor B) persists a state where M's owner field is B, M appears in B's
module list, and in no other instructor's list — both sides of the
ownership relation are reconciled before the route returns. -/
theorem C4_reassign_ownership
    (cfg : Config) (mid A B : Str) (m : Module) (instA instB : Instructor)
    (hkeys : (cfg.instructors.map Prod.fst).Nodup)
    (hm : alookup cfg.modules mid = some m)
    (hA : alookup cfg.instructors A = some instA)
    (hAfield : m.instructor_id = A)
    (hAlist : mid ∈ instA.modules)
    (hB : alookup cfg.instructors B = some instB)
    (hBne : B ≠ [])
    (hdup : ∀ q ∈ cfg.instructors, q.2.modules.count mid ≤ 1) :
    ∃ cfg', updateModuleRoute cfg mid { instructor_id := some B } = some cfg' ∧
      (alookup cfg'.modules mid).map Module.instructor_id = some B ∧
      (∃ lB, getInstructorModules cfg' B = some lB ∧ mid ∈ lB) ∧
      (∀ q ∈ cfg'.instructors, q.1 ≠ B → mid ∉ q.2.modules) := by
  have hmk : hasKey cfg.modules mid = true := by simp [hasKey, hm]
  have h1 : updateModule cfg mid
      (UpdateModuleReq.toPatch { instructor_id := some B }) =
      some { cfg with
             modules := modifyVal cfg.modules mid
               (fun mm => { mm with instructor_id := B }) } := by
    unfold updateModule UpdateModuleReq.toPatch
    rw [if_neg (by simp [hmk])]
    rfl
  have h2 : cfg.instructors.foldl (routeRemovalStep mid (some B))
      { cfg with
        modules := modifyVal cfg.modules mid
          (fun mm => { mm with instructor_id := B }) } =
      { cfg with
        modules := modifyVal cfg.modules mid
          (fun mm => { mm with instructor_id := B })
        instructors := cfg.instructors.map
          (fun q => (q.1, rmVal mid B q.1 q.2)) } := by
    have := route_loop mid B cfg.instructors []
      { cfg with
        modules := modifyVal cfg.modules mid
          (fun mm => { mm with instructor_id := B }) }
      rfl (by simpa using hkeys)
    simpa using this
  have hlookB2 : alookup (cfg.instructors.map
      (fun q => (q.1, rmVal mid B q.1 q.2))) B = some instB := by
    rw [alookup_map_kv (rmVal mid B), hB]
    simp [rmVal]
  have hmodconc : (alookup (modifyVal cfg.modules mid
      (fun mm => { mm with instructor_id := B })) mid).map Module.instructor_id
      = some B := by
    rw [alookup_modifyVal_self, hm]
    rfl
  have hothers : ∀ q ∈ cfg.instructors.map
      (fun q => (q.1, rmVal mid B q.1 q.2)), q.1 ≠ B → mid ∉ q.2.modules := by
    intro q hq hqne
    obtain ⟨p, hp, he⟩ := List.mem_map.mp hq
    have hq1 : q.1 = p.1 := by rw [← he]
    have hq2 : q.2 = rmVal mid B p.1 p.2 := by rw [← he]
    rw [hq2]
    unfold rmVal
    by_cases hin : mid ∈ p.2.modules
    · rw [if_pos ⟨hin, by rw [← hq1]; exact hqne⟩]
      exact not_mem_removeFirst _ _ (hdup p hp)
    · rw [if_neg (fun hc => hin hc.1)]
      exact hin
  have hBkey : B ∈ cfg.instructors.map Prod.fst := by
    have := mem_of_alookup_eq_some _ _ _ hB
    exact List.mem_map_of_mem Prod.fst this
  have hk2 : hasKey (cfg.instructors.map
      (fun q => (q.1, rmVal mid B q.1 q.2))) B = true := by
    unfold hasKey
    rw [hlookB2]
    rfl
  by_cases hmemB : mid ∈ instB.modules
  · refine ⟨{ cfg with
        modules := modifyVal cfg.modules mid
          (fun mm => { mm with instructor_id := B })
        instructors := cfg.instructors.map
          (fun q => (q.1, rmVal mid B q.1 q.2)) }, ?_, ?_, ?_, ?_⟩
    · unfold updateModuleRoute
      rw [h1]
      dsimp only
      rw [h2]
      rw [if_pos hBne, hB]
      dsimp only
      rw [if_neg (fun hc => hc hmemB)]
    · exact hmodconc
    · exact ⟨instB.modules, by
        unfold getInstructorModules getInstructor
        rw [show ({ cfg with
            modules := modifyVal cfg.modules mid
              (fun mm => { mm with instructor_id := B })
            instructors := cfg.instructors.map
              (fun q => (q.1, rmVal mid B q.1 q.2)) } : Config).instructors
          = cfg.instructors.map (fun q => (q.1, rmVal mid B q.1 q.2)) from rfl]
        rw [hlookB2]
        rfl, hmemB⟩
    · exact hothers
  · refine ⟨{ cfg with
        modules := modifyVal cfg.modules mid
          (fun mm => { mm with instructor_id := B })
        instructors := modifyVal (cfg.instructors.map
            (fun q => (q.1, rmVal mid B q.1 q.2))) B
          (fun i => { i with modules := instB.modules ++ [mid] }) },
      ?_, ?_, ?_, ?_⟩
    · unfold updateModuleRoute
      rw [h1]
      dsimp only
      rw [h2]
      rw [if_pos hBne, hB]
      dsimp only
      rw [if_pos hmemB]
      rw [updateInstructor_modules]
      dsimp only
      rw [if_pos hk2, Option.getD_some]
    · exact hmodconc
    · refine ⟨instB.modules ++ [mid], ?_, by simp⟩
      unfold getInstructorModules getInstructor
      dsimp only
      rw [alookup_modifyVal_self, hlookB2]
      rfl
    · intro q hq hqne
      have hq' : q ∈ modifyVal (cfg.instructors.map
          (fun q => (q.1, rmVal mid B q.1 q.2))) B
          (fun i => { i with modules := instB.modules ++ [mid] }) := hq
      have hq2 := mem_modifyVal_ne _ _ _ _ hq' hqne
      exact hothers q hq2 hqne

/-- C4 (witness): reassigning `m1` from `p1` to `p2` in `cfgBase`. -/
theorem C4_reassign_ownership_witness :
    ∃ cfg', updateModuleRoute cfgBase m1Key { instructor_id := some p2Key }
        = some cfg' ∧
      (alookup cfg'.modules m1Key).map Module.instructor_id = some p2Key ∧
      (∃ lB, getInstructorModules cfg' p2Key = some lB ∧ m1Key ∈ lB) ∧
      (∀ q ∈ cfg'.instructors, q.1 ≠ p2Key → m1Key ∉ q.2.modules) :=
  C4_reassign_ownership cfgBase m1Key p1Key p2Key modCS101 instAnn instBob
    (by decide) rfl rfl rfl (by decide) rfl (by decide) (by decide)

/-! ## Claim C7 -/

theorem mem_enumFrom_of_get? {α : Type} (l : List α) :
    ∀ (n i : Nat) (a : α), l.get? i = some a → (n + i, a) ∈ l.enumFrom n := by
  induction l with
  | nil => intro n i a h; simp at h
  | cons x xs ih =>
    intro n i a h
    cases i with
    | zero =>
      cases h
      simp [List.enumFrom]
    | succ j =>
      have hj := ih (n + 1) j a h
      have harith : n + (j + 1) = n + 1 + j := by omega
      rw [harith]
      exact List.mem_cons_of_mem _ hj

theorem mem_enum_of_get? {α : Type} (l : List α) (i : Nat) (a : α)
    (h : l.get? i = some a) : (i, a) ∈ l.enum := by
  have := mem_enumFrom_of_get? l 0 i a h
  simpa [List.enum] using this

/-- C7: the validator returns every violation it finds: for any document —
however many other violations it contains — a module software entry with no
`name` contributes its violation (naming the module and the entry's index)
to the result, and a document with no `modules` section contributes the
missing-key violation; `validateConfig` is a pure function, so it is
deterministic and side-effect free by construction. -/
theorem C7_validator_complete :
    (∀ (c : RawConfig) (mods : List (Str × RawModule)) (mid : Str)
        (m : RawModule) (l : List RawSoftware) (idx : Nat) (sw : RawSoftware),
      c.modules = some mods → (mid, m) ∈ mods → m.software = some l →
      l.get? idx = some sw → sw.name = none →
      msgSwMissingName mid idx ∈ (validateConfig c).2) ∧
    (∀ c : RawConfig, c.modules = none →
      msgMissingKey modulesKey ∈ (validateConfig c).2) := by
  constructor
  · intro c mods mid m l idx sw hmods hmem hsoft hget hname
    show msgSwMissingName mid idx ∈ vcErrors c
    unfold vcErrors
    apply List.mem_append_right
    rw [hmods]
    apply List.mem_flatMap.mpr
    refine ⟨(mid, m), hmem, ?_⟩
    apply List.mem_append_right
    show msgSwMissingName mid idx ∈
      (match m.software with
       | none => [msgModMissingSoftware mid]
       | some l =>
         l.enum.flatMap (fun p =>
           (if p.2.name.isNone then [msgSwMissingName mid p.1] else []) ++
           (if p.2.purpose.isNone then
              [msgSwMissingPurpose mid (p.2.name.getD questionStr)] else [])))
    rw [hsoft]
    apply List.mem_flatMap.mpr
    refine ⟨(idx, sw), mem_enum_of_get? l idx sw hget, ?_⟩
    apply List.mem_append_left
    rw [hname]
    exact List.mem_singleton.mpr rfl
  · intro c h
    show msgMissingKey modulesKey ∈ vcErrors c
    unfold vcErrors
    rw [h]
    apply List.mem_append_left
    apply List.mem_append_left
    apply List.mem_append_right
    simp

/-- C7 (witness). -/
theorem C7_validator_complete_witness :
    msgSwMissingName m1Key 0 ∈ (validateConfig rawNoSwName).2 ∧
    msgMissingKey modulesKey ∈ (validateConfig rawNoModules).2 :=
  ⟨C7_validator_complete.1 rawNoSwName [(m1Key, rawModX)] m1Key rawModX
      [rawSwNoName] 0 rawSwNoName rfl (List.mem_singleton.mpr rfl) rfl rfl rfl,
   C7_validator_complete.2 rawNoModules rfl⟩

/-- C10 (witness): the caller-supplied dates `1999-01-01` / `2024-05-01`
are overwritten with the current date. -/
theorem C10_timestamps_witness :
    (∃ cfg', addInstructor dateA cfgBase p3Key instCarolOld = some cfg' ∧
      alookup cfg'.instructors p3Key
        = some { instCarolOld with last_review := dateA }) ∧
    (∃ cfg', addSoftwareToModule dateA cfgBase m1Key swVSCode = some cfg' ∧
      alookup cfg'.modules m1Key = some { modCS101 with software :=
        [{ swVSCode with last_verified := dateA }] }) :=
  ⟨⟨_, rfl, C10_timestamps.1 dateA cfgBase p3Key instCarolOld _ rfl⟩,
   ⟨_, rfl, C10_timestamps.2 dateA cfgBase m1Key swVSCode _ modCS101 rfl rfl⟩⟩


/-! ## Claim C1: string lemmas -/

theorem pyStrip_space_cons (c : Char) (s : Str) (h : pySpace c = true) :
    pyStrip (c :: s) = pyStrip s := by
  unfold pyStrip
  rw [List.dropWhile_cons, if_pos h]

theorem splitComma_cons_comma (cs : Str) :
    splitComma (',' :: cs) = [] :: splitComma cs := by
  show (if ',' = ',' then [] :: splitComma cs
    else List.modifyHead (fun t => ',' :: t) (splitComma cs)) = [] :: splitComma cs
  rw [if_pos rfl]

theorem splitComma_cons_ne (c : Char) (cs : Str) (h : ¬ c = ',') :
    splitComma (c :: cs) = List.modifyHead (fun t => c :: t) (splitComma cs) := by
  show (if c = ',' then [] :: splitComma cs
    else List.modifyHead (fun t => c :: t) (splitComma cs)) = _
  rw [if_neg h]

theorem splitComma_ne_nil (s : Str) : splitComma s ≠ [] := by
  induction s with
  | nil => simp [splitComma]
  | cons c cs ih =>
    by_cases h : c = ','
    · subst h
      rw [splitComma_cons_comma]
      simp
    · rw [splitComma_cons_ne c cs h]
      cases hsc : splitComma cs with
      | nil => exact absurd hsc ih
      | cons x xs => simp [List.modifyHead]

theorem splitComma_append :
    ∀ (a b : Str), ',' ∉ a →
      splitComma (a ++ b) = List.modifyHead (fun t => a ++ t) (splitComma b) := by
  intro a
  induction a with
  | nil =>
    intro b _
    simp only [List.nil_append]
    cases hsc : splitComma b with
    | nil => exact absurd hsc (splitComma_ne_nil b)
    | cons x xs => simp [List.modifyHead]
  | cons c a' ih =>
    intro b ha
    have hc : ¬ (c = ',') := fun h => ha (by rw [h]; exact List.mem_cons_self _ _)
    have ha' : ',' ∉ a' := fun h => ha (List.mem_cons_of_mem _ h)
    rw [List.cons_append, splitComma_cons_ne c _ hc, ih b ha']
    cases hsc : splitComma b with
    | nil => exact absurd hsc (splitComma_ne_nil b)
    | cons x xs => simp [List.modifyHead]

theorem splitComma_no_comma (s : Str) (h : ',' ∉ s) : splitComma s = [s] := by
  have hx := splitComma_append s [] h
  rw [List.append_nil] at hx
  simpa [splitComma, List.modifyHead] using hx

theorem importSplit_joinSep :
    ∀ (l : List Str), (∀ x ∈ l, goodStr x) →
      importSplit (joinSep commaSpace l) = l := by
  intro l
  induction l with
  | nil =>
    intro _
    rfl
  | cons x l' ih =>
    intro h
    obtain ⟨hne, hnc, hst⟩ := h x (List.mem_cons_self _ _)
    cases l' with
    | nil =>
      unfold joinSep importSplit
      rw [splitComma_no_comma x hnc]
      simp [hst, hne]
    | cons y rest =>
      have hrest : ∀ z ∈ y :: rest, goodStr z :=
        fun z hz => h z (List.mem_cons_of_mem _ hz)
      have hjoin : joinSep commaSpace (x :: y :: rest)
          = x ++ (',' :: ' ' :: joinSep commaSpace (y :: rest)) := by
        show x ++ commaSpace ++ joinSep commaSpace (y :: rest) = _
        simp [commaSpace]
      obtain ⟨h0, t0, hsc0⟩ :=
        List.exists_cons_of_ne_nil (splitComma_ne_nil (joinSep commaSpace (y :: rest)))
      have h2 : splitComma (' ' :: joinSep commaSpace (y :: rest))
          = (' ' :: h0) :: t0 := by
        rw [splitComma_cons_ne ' ' _ (by decide), hsc0]
        simp [List.modifyHead]
      have h1 : splitComma (',' :: ' ' :: joinSep commaSpace (y :: rest))
          = [] :: (' ' :: h0) :: t0 := by
        rw [splitComma_cons_comma, h2]
      unfold importSplit
      rw [hjoin, splitComma_append x _ hnc, h1]
      simp only [List.modifyHead, List.append_nil, List.map_cons]
      rw [hst, pyStrip_space_cons ' ' h0 (by decide)]
      have hihx : importSplit (joinSep commaSpace (y :: rest)) = y :: rest := ih hrest
      unfold importSplit at hihx
      rw [hsc0] at hihx
      simp only [List.map_cons] at hihx
      simp only [List.filter_cons]
      rw [if_pos (by simpa using hne)]
      simp only [List.filter_cons] at hihx
      rw [hihx]

/-! ## Claim C1: stripped-string well-formedness -/

theorem mem_pyStrip {c : Char} {s : Str} (h : c ∈ pyStrip s) : c ∈ s := by
  have h1 : c ∈ (s.dropWhile pySpace).reverse.dropWhile pySpace :=
    List.mem_reverse.mp h
  have h2 : c ∈ (s.dropWhile pySpace).reverse :=
    (List.dropWhile_suffix pySpace).subset h1
  have h3 : c ∈ s.dropWhile pySpace := List.mem_reverse.mp h2
  exact (List.dropWhile_suffix pySpace).subset h3

theorem pyStrip_eq_nil_forall (s : Str) (h : pyStrip s = []) :
    ∀ c ∈ s, pySpace c = true := by
  unfold pyStrip at h
  rw [List.reverse_eq_nil_iff, List.dropWhile_eq_nil_iff] at h
  intro c hc
  have hsplit := List.takeWhile_append_dropWhile (p := pySpace) (l := s)
  rw [← hsplit] at hc
  rcases List.mem_append.mp hc with hc | hc
  · exact List.mem_takeWhile_imp hc
  · exact h c (List.mem_reverse.mpr hc)

theorem pyStrip_ne_nil {c : Char} {s : Str} (hc : c ∈ s)
    (hns : pySpace c = false) : pyStrip s ≠ [] := by
  intro h
  have := pyStrip_eq_nil_forall s h c hc
  rw [hns] at this
  cases this

theorem dropWhile_dropWhile (p : Char → Bool) (l : Str) :
    (l.dropWhile p).dropWhile p = l.dropWhile p := by
  induction l with
  | nil => rfl
  | cons c cs ih =>
    rw [List.dropWhile_cons]
    by_cases h : p c = true
    · rw [if_pos h]; exact ih
    · rw [if_neg h, List.dropWhile_cons, if_neg h]

theorem dropWhile_head_false (p : Char → Bool) :
    ∀ (l : Str) (c : Char) (cs : Str), l.dropWhile p = c :: cs → p c = false := by
  intro l
  induction l with
  | nil => intro c cs h; cases h
  | cons x xs ih =>
    intro c cs h
    rw [List.dropWhile_cons] at h
    by_cases hx : p x = true
    · rw [if_pos hx] at h
      exact ih c cs h
    · rw [if_neg hx] at h
      cases h
      simpa using hx

theorem pyStrip_idem (s : Str) : pyStrip (pyStrip s) = pyStrip s := by
  have hB : (pyStrip s).reverse.dropWhile pySpace = (pyStrip s).reverse := by
    unfold pyStrip
    rw [List.reverse_reverse]
    exact dropWhile_dropWhile pySpace _
  have hA : (pyStrip s).dropWhile pySpace = pyStrip s := by
    cases hw : pyStrip s with
    | nil => rfl
    | cons c cs =>
      have hpre : pyStrip s <+: s.dropWhile pySpace := by
        have h1 : (s.dropWhile pySpace).reverse.dropWhile pySpace <:+
            (s.dropWhile pySpace).reverse := List.dropWhile_suffix pySpace
        have h2 := List.reverse_prefix.mpr h1
        rw [List.reverse_reverse] at h2
        exact h2
      rw [hw] at hpre
      obtain ⟨t, ht⟩ := hpre
      have hc : pySpace c = false :=
        dropWhile_head_false pySpace s c (cs ++ t) (by rw [← ht]; simp)
      rw [List.dropWhile_cons, if_neg (by simp [hc])]
  show (((pyStrip s).dropWhile pySpace).reverse.dropWhile pySpace).reverse
      = pyStrip s
  rw [hA, hB, List.reverse_reverse]

theorem goodStr_pyStrip (s : Str) (hne : pyStrip s ≠ []) (hnc : ',' ∉ s) :
    goodStr (pyStrip s) :=
  ⟨hne, fun h => hnc (mem_pyStrip h), pyStrip_idem s⟩

theorem goodStr_osEntryDisplay (e : OSEntry) (h : goodOSEntry e) :
    goodStr (osEntryDisplay e) := by
  cases e with
  | raw s => exact h
  | dict n t d =>
    obtain ⟨⟨hne, hnc, hst⟩, hnt, hnd⟩ := h
    have hnotec : ',' ∉ (if t ≠ [] then t else d) := by
      by_cases ht : t ≠ [] <;> simp [ht, hnt, hnd]
    show goodStr (if (if t ≠ [] then t else d) ≠ [] then
      pyStrip (n ++ ' ' :: '(' :: ((if t ≠ [] then t else d) ++ [')'])) else n)
    by_cases hnote : (if t ≠ [] then t else d) ≠ []
    · rw [if_pos hnote]
      apply goodStr_pyStrip
      · exact pyStrip_ne_nil (c := '(')
          (List.mem_append_right _ (by simp)) (by decide)
      · intro hmem
        rcases List.mem_append.mp hmem with hmem | hmem
        · exact hnc hmem
        · simp only [List.mem_cons] at hmem
          rcases hmem with h | h | hmem
          · exact absurd h (by decide)
          · exact absurd h (by decide)
          · rcases List.mem_append.mp hmem with hmem | hmem
            · exact hnotec hmem
            · exact absurd (List.mem_singleton.mp hmem) (by decide)
    · rw [if_neg hnote]
      exact ⟨hne, hnc, hst⟩

theorem moduleOsNames_good (l : List OSEntry) (h : ∀ e ∈ l, goodOSEntry e) :
    ∀ x ∈ moduleOsNames l, goodStr x := by
  intro x hx
  unfold moduleOsNames at hx
  obtain ⟨e, he, hmem⟩ := List.mem_flatMap.mp hx
  have hge := h e he
  cases e with
  | dict n t d =>
    dsimp only at hmem
    by_cases hn : n ≠ []
    · rw [if_pos hn] at hmem
      rw [List.mem_singleton.mp hmem]
      exact hge.1
    · rw [if_neg hn] at hmem
      cases hmem
  | raw s =>
    dsimp only at hmem
    rw [List.mem_singleton.mp hmem]
    exact hge

theorem moduleOsNames_ne_nil (e : OSEntry) (rest : List OSEntry)
    (h : goodOSEntry e) : moduleOsNames (e :: rest) ≠ [] := by
  cases e with
  | dict n t d =>
    unfold moduleOsNames
    rw [List.flatMap_cons]
    simp only [if_pos h.1.1]
    simp
  | raw s =>
    unfold moduleOsNames
    rw [List.flatMap_cons]
    simp

theorem osDisplay_filter (l : List OSEntry) (h : ∀ e ∈ l, goodOSEntry e) :
    (l.map osEntryDisplay).filter (fun o => o ≠ []) = l.map osEntryDisplay := by
  rw [List.filter_eq_self]
  intro x hx
  obtain ⟨e, he, hee⟩ := List.mem_map.mp hx
  rw [← hee]
  simpa using (goodStr_osEntryDisplay e (h e he)).1

theorem joinSep_ne_nil (sep : Str) (x : Str) (rest : List Str) (hx : x ≠ []) :
    joinSep sep (x :: rest) ≠ [] := by
  cases rest with
  | nil => exact hx
  | cons y r =>
    unfold joinSep
    simp [hx]


/-! ## Claim C1: sheet-import lemmas -/

theorem modifyVal_id {α : Type} (l : List (Str × α)) (k : Str) :
    modifyVal l k (fun x => x) = l := by
  induction l with
  | nil => rfl
  | cons p t ih =>
    obtain ⟨a, v⟩ := p
    by_cases h : a = k <;> simp [modifyVal_cons, h, ih]

theorem alookup_self_of_nodup {α : Type} :
    ∀ (l : List (Str × α)), (l.map Prod.fst).Nodup →
      ∀ q ∈ l, alookup l q.1 = some q.2 := by
  intro l
  induction l with
  | nil => intro _ q hq; cases hq
  | cons p t ih =>
    intro hnd q hq
    obtain ⟨a, v⟩ := p
    rw [List.map_cons] at hnd
    obtain ⟨hna, hnt⟩ := List.nodup_cons.mp hnd
    rcases List.mem_cons.mp hq with rfl | hq
    · rw [alookup_cons, if_pos rfl]
    · have hne : ¬ (a = q.1) := by
        intro hh
        apply hna
        rw [hh]
        exact List.mem_map.mpr ⟨q, hq, rfl⟩
      rw [alookup_cons, if_neg hne]
      exact ih hnt q hq

theorem hasKey_false_of_not_mem {α : Type} (l : List (Str × α)) (k : Str)
    (h : k ∉ l.map Prod.fst) : hasKey l k = false := by
  unfold hasKey
  rw [alookup_eq_none_of_not_mem l k h]
  rfl

theorem importInstructorRow_eq (d : List (Str × Instructor))
    (c0 c1 c2 c3 c4 c5 : Cell) :
    importInstructorRow d [c0, c1, c2, c3, c4, c5] =
      if c0.truthy then
        dictAssign d c0.asStr
          { name := c1.orEmpty
            email := c2.orEmpty
            department := c3.orEmpty
            modules := importSplit (if c4.truthy then c4.asStr else [])
            last_review := c5.orEmpty }
      else d := rfl

theorem import_instructors_phase :
    ∀ (l d : List (Str × Instructor)),
      (d.map Prod.fst ++ l.map Prod.fst).Nodup →
      (∀ q ∈ l, q.1 ≠ [] ∧ ∀ x ∈ q.2.modules, goodStr x) →
      (l.map (fun q => instructorRow q.1 q.2)).foldl importInstructorRow d
        = d ++ l := by
  intro l
  induction l with
  | nil =>
    intro d _ _
    simp
  | cons q l' ih =>
    intro d hnd hgood
    obtain ⟨a, v⟩ := q
    obtain ⟨hane, hvgood⟩ := hgood _ (List.mem_cons_self _ _)
    have hnd' : (d.map Prod.fst ++ a :: l'.map Prod.fst).Nodup := by
      simpa using hnd
    obtain ⟨hd, hc, hdisj⟩ := List.nodup_append.mp hnd'
    have hnotd : a ∉ d.map Prod.fst :=
      fun hmem => hdisj hmem (List.mem_cons_self _ _)
    rw [List.map_cons, List.foldl_cons]
    have hrow : importInstructorRow d (instructorRow a v) = d ++ [(a, v)] := by
      unfold instructorRow
      rw [importInstructorRow_eq]
      rw [if_pos (by simp [Cell.truthy, hane])]
      have hms : (if (Cell.s (joinSep commaSpace v.modules)).truthy = true
          then (Cell.s (joinSep commaSpace v.modules)).asStr else [])
          = joinSep commaSpace v.modules := by
        by_cases hj : joinSep commaSpace v.modules = [] <;>
          simp [Cell.truthy, Cell.asStr, hj]
      rw [hms]
      rw [importSplit_joinSep v.modules hvgood]
      show dictAssign d a
        { name := v.name, email := v.email, department := v.department
          modules := v.modules, last_review := v.last_review } = d ++ [(a, v)]
      unfold dictAssign
      rw [hasKey_false_of_not_mem d a hnotd]
      rfl
    rw [hrow]
    have hmain := ih (d ++ [(a, v)]) (by
      have : ((d ++ [(a, v)]).map Prod.fst ++ l'.map Prod.fst)
          = d.map Prod.fst ++ a :: l'.map Prod.fst := by simp
      rw [this]
      exact hnd') (fun z hz => hgood z (List.mem_cons_of_mem _ hz))
    rw [hmain]
    simp

theorem importModuleRow_eq (d : List (Str × Module))
    (c0 c1 c2 c3 c4 c5 c6 c7 : Cell) :
    importModuleRow d [c0, c1, c2, c3, c4, c5, c6, c7] =
      if c0.truthy then
        match (if c4.truthy then c4.toInt else some 1),
              (if c5.truthy then c5.toInt else some 1) with
        | some y, some sem =>
          some (dictAssign d c0.asStr
            { code := c1.orEmpty
              name := c2.orEmpty
              description := c3.orEmpty
              year := y
              semester := sem
              os_required :=
                if c6.truthy then
                  (importSplit c6.asStr).map (fun n => OSEntry.dict n [] [])
                else []
              instructor_id := c7.orEmpty
              software := [] })
        | _, _ => none
      else some d := rfl

theorem import_modules_phase :
    ∀ (l d : List (Str × Module)),
      (d.map Prod.fst ++ l.map Prod.fst).Nodup →
      (∀ q ∈ l, q.1 ≠ [] ∧ q.2.year ≠ 0 ∧ q.2.semester ≠ 0 ∧
        ∀ e ∈ q.2.os_required, goodOSEntry e) →
      (l.map (fun q => moduleRow q.1 q.2)).foldlM importModuleRow d
        = some (d ++ l.map (fun q => (q.1, importedModule q.2))) := by
  intro l
  induction l with
  | nil =>
    intro d _ _
    simp
  | cons q l' ih =>
    intro d hnd hgood
    obtain ⟨a, v⟩ := q
    obtain ⟨hane, hy, hsem, hos⟩ := hgood _ (List.mem_cons_self _ _)
    have hos' : ∀ e ∈ v.os_required, goodOSEntry e := hos
    have hnd' : (d.map Prod.fst ++ a :: l'.map Prod.fst).Nodup := by
      simpa using hnd
    obtain ⟨hd, hc, hdisj⟩ := List.nodup_append.mp hnd'
    have hnotd : a ∉ d.map Prod.fst :=
      fun hmem => hdisj hmem (List.mem_cons_self _ _)
    rw [List.map_cons, List.foldlM_cons]
    have hrow : importModuleRow d (moduleRow a v)
        = some (d ++ [(a, importedModule v)]) := by
      unfold moduleRow
      rw [importModuleRow_eq]
      rw [if_pos (by simp [Cell.truthy, hane])]
      have hyy : (if (Cell.i v.year).truthy = true
          then (Cell.i v.year).toInt else some 1) = some v.year := by
        rw [if_pos (by simp [Cell.truthy, hy])]
        rfl
      have hss : (if (Cell.i v.semester).truthy = true
          then (Cell.i v.semester).toInt else some 1) = some v.semester := by
        rw [if_pos (by simp [Cell.truthy, hsem])]
        rfl
      rw [hyy, hss]
      have hosreq : (if (Cell.s (joinSep commaSpace
            ((v.os_required.map osEntryDisplay).filter (fun o => o ≠ [])))).truthy = true
          then (importSplit (Cell.s (joinSep commaSpace
            ((v.os_required.map osEntryDisplay).filter (fun o => o ≠ [])))).asStr).map
              (fun n => OSEntry.dict n [] [])
          else [])
          = v.os_required.map foldOSEntry := by
        rw [osDisplay_filter v.os_required hos']
        cases hcase : v.os_required with
        | nil => simp [joinSep, Cell.truthy]
        | cons e rest =>
          have hgoodd : ∀ x ∈ (e :: rest).map osEntryDisplay, goodStr x := by
            intro x hx
            obtain ⟨ee, hee, heq⟩ := List.mem_map.mp hx
            rw [← heq]
            refine goodStr_osEntryDisplay ee (hos' ee ?_)
            rw [hcase]
            exact hee
          have hemem : e ∈ v.os_required := by
            rw [hcase]
            exact List.mem_cons_self _ _
          have hjne : joinSep commaSpace
              (osEntryDisplay e :: rest.map osEntryDisplay) ≠ [] :=
            joinSep_ne_nil _ _ _ (goodStr_osEntryDisplay e (hos' e hemem)).1
          rw [if_pos (by simp [Cell.truthy, hjne])]
          show ((importSplit (joinSep commaSpace ((e :: rest).map osEntryDisplay)))).map
              (fun n => OSEntry.dict n [] []) = (e :: rest).map foldOSEntry
          rw [importSplit_joinSep _ hgoodd, List.map_map]
          rfl
      rw [hosreq]
      show some (dictAssign d a
        { code := v.code, name := v.name, description := v.description
          year := v.year, semester := v.semester
          os_required := v.os_required.map foldOSEntry
          instructor_id := v.instructor_id, software := [] })
        = some (d ++ [(a, importedModule v)])
      unfold dictAssign
      rw [hasKey_false_of_not_mem d a hnotd]
      rfl
    rw [hrow]
    show (l'.map (fun q => moduleRow q.1 q.2)).foldlM importModuleRow
        (d ++ [(a, importedModule v)]) = _
    have hmain := ih (d ++ [(a, importedModule v)]) (by
      have : ((d ++ [(a, importedModule v)]).map Prod.fst ++ l'.map Prod.fst)
          = d.map Prod.fst ++ a :: l'.map Prod.fst := by simp
      rw [this]
      exact hnd') (fun z hz => hgood z (List.mem_cons_of_mem _ hz))
    rw [hmain]
    simp


/-! ## Claim C1: Software-sheet replay -/

theorem importSoftwareRow_eq (d : List (Str × Module))
    (c0 c1 c2 c3 c4 c5 c6 c7 c8 c9 : Cell) :
    importSoftwareRow d [c0, c1, c2, c3, c4, c5, c6, c7, c8, c9] =
      if c0.truthy ∧ c1.truthy then
        match alookup d c0.asStr with
        | none => d
        | some m =>
          let osStr := if c6.truthy then c6.asStr else []
          let osSup := if osStr ≠ [] then importSplit osStr else []
          let osSup := if osSup = [] then moduleOsNames m.os_required else osSup
          modifyVal d c0.asStr (fun mm =>
            { mm with software := mm.software ++
                [{ name := c1.asStr
                   version := c2.orEmpty
                   purpose := c3.orEmpty
                   category := c4.orEmpty
                   critical := if c5.truthy then c5 = Cell.s yesStr else false
                   os_supported := osSup
                   notes := c7.orEmpty
                   last_verified := c8.orEmpty
                   verified_by := c9.orEmpty }] })
      else d := rfl

theorem import_software_row (d : List (Str × Module)) (k : Str)
    (names : List Str) (sw : Software) (m₀ : Module)
    (ha : alookup d k = some m₀) (hk : k ≠ []) (hn : sw.name ≠ [])
    (hos : ∀ o ∈ sw.os_supported, goodStr o)
    (hnames : ∀ o ∈ names, goodStr o)
    (hfb : sw.os_supported = [] → names = [] →
      moduleOsNames m₀.os_required = []) :
    importSoftwareRow d (softwareRow k names sw)
      = modifyVal d k (fun mm =>
          { mm with software := mm.software ++ [idealizeSoftware names sw] }) := by
  have hgoodX : ∀ o ∈ exportOsList names sw, goodStr o := by
    unfold exportOsList
    by_cases hc : sw.os_supported = [] ∧ names ≠ []
    · rw [if_pos hc]; exact hnames
    · rw [if_neg hc]; exact hos
  have hE : (if (Cell.s (joinSep commaSpace (exportOsList names sw))).truthy = true
      then joinSep commaSpace (exportOsList names sw) else [])
      = joinSep commaSpace (exportOsList names sw) := by
    by_cases hj : joinSep commaSpace (exportOsList names sw) = [] <;>
      simp [Cell.truthy, hj]
  have hX : (if joinSep commaSpace (exportOsList names sw) ≠ [] then
      importSplit (joinSep commaSpace (exportOsList names sw)) else [])
      = exportOsList names sw := by
    by_cases hXnil : exportOsList names sw = []
    · rw [hXnil]
      simp [joinSep]
    · obtain ⟨x, xs, hxx⟩ := List.exists_cons_of_ne_nil hXnil
      have hxgood : goodStr x := by
        apply hgoodX
        rw [hxx]
        exact List.mem_cons_self _ _
      have hJne := joinSep_ne_nil commaSpace x xs hxgood.1
      rw [hxx, if_pos hJne]
      rw [importSplit_joinSep (x :: xs) ?hgx]
      case hgx =>
        intro z hz
        apply hgoodX
        rw [hxx]
        exact hz
  have hosSup : (if exportOsList names sw = [] then moduleOsNames m₀.os_required
      else exportOsList names sw)
      = (if sw.os_supported = [] then names else sw.os_supported) := by
    unfold exportOsList
    by_cases h1 : sw.os_supported = []
    · by_cases h2 : names = []
      · simp [h1, h2, hfb h1 h2]
      · simp [h1, h2]
    · simp [h1]
  have hcrit : (if (Cell.s (yesNo sw.critical)).truthy = true
      then decide (Cell.s (yesNo sw.critical) = Cell.s yesStr) else false)
      = sw.critical := by
    cases sw.critical <;> decide
  unfold softwareRow
  rw [importSoftwareRow_eq]
  rw [if_pos ⟨by simp [Cell.truthy, hk], by simp [Cell.truthy, hn]⟩]
  simp only [Cell.asStr]
  rw [ha]
  simp only [Cell.orEmpty, hE, hX, hosSup, hcrit]
  rfl

theorem import_software_batch (k : Str) (names : List Str) :
    ∀ (swl : List Software) (d : List (Str × Module)) (m₀ : Module),
      alookup d k = some m₀ → k ≠ [] →
      (∀ sw ∈ swl, sw.name ≠ [] ∧ ∀ o ∈ sw.os_supported, goodStr o) →
      (∀ o ∈ names, goodStr o) →
      (names = [] → moduleOsNames m₀.os_required = []) →
      (swl.map (softwareRow k names)).foldl importSoftwareRow d
        = modifyVal d k (fun mm =>
            { mm with software := mm.software ++ swl.map (idealizeSoftware names) }) := by
  intro swl
  induction swl with
  | nil =>
    intro d m₀ ha hk hswl hnames hfbn
    simp only [List.map_nil, List.foldl_nil]
    have hid : (fun mm : Module => { mm with software := mm.software ++ [] })
        = fun mm => mm := by
      funext mm
      simp
    rw [hid, modifyVal_id]
  | cons sw rest ih =>
    intro d m₀ ha hk hswl hnames hfbn
    obtain ⟨hn, hos⟩ := hswl sw (List.mem_cons_self _ _)
    rw [List.map_cons, List.foldl_cons]
    rw [import_software_row d k names sw m₀ ha hk hn hos hnames
      (fun _ h2 => hfbn h2)]
    have ha' : alookup (modifyVal d k (fun mm =>
        { mm with software := mm.software ++ [idealizeSoftware names sw] })) k
        = some { m₀ with software := m₀.software ++ [idealizeSoftware names sw] } := by
      rw [alookup_modifyVal_self, ha]
      rfl
    have hmain := ih (modifyVal d k (fun mm =>
        { mm with software := mm.software ++ [idealizeSoftware names sw] }))
      { m₀ with software := m₀.software ++ [idealizeSoftware names sw] }
      ha' hk (fun z hz => hswl z (List.mem_cons_of_mem _ hz)) hnames
      (fun h => hfbn h)
    rw [hmain, modifyVal_modifyVal]
    exact congrArg (modifyVal d k) (funext (fun mm => by simp))

theorem import_software_phase :
    ∀ (l d : List (Str × Module)),
      (l.map Prod.fst).Nodup →
      (∀ q ∈ l, q.1 ≠ [] ∧
        (∀ sw ∈ q.2.software, sw.name ≠ [] ∧ ∀ o ∈ sw.os_supported, goodStr o) ∧
        (∀ e ∈ q.2.os_required, goodOSEntry e) ∧
        alookup d q.1 = some (importedModule q.2)) →
      (l.flatMap (fun q => q.2.software.map
          (softwareRow q.1 (moduleOsNames q.2.os_required)))).foldl
        importSoftwareRow d
      = l.foldl (fun acc q => modifyVal acc q.1 (fun mm =>
          { mm with software := mm.software ++
              q.2.software.map (idealizeSoftware (moduleOsNames q.2.os_required)) })) d := by
  intro l
  induction l with
  | nil =>
    intro d _ _
    rfl
  | cons q l' ih =>
    intro d hnd hh
    obtain ⟨hq1, hqsw, hqos, hqa⟩ := hh q (List.mem_cons_self _ _)
    have hnd2 : (q.1 :: l'.map Prod.fst).Nodup := hnd
    obtain ⟨hqnot, hnd'⟩ := List.nodup_cons.mp hnd2
    rw [List.flatMap_cons, List.foldl_append, List.foldl_cons]
    have hnames : ∀ o ∈ moduleOsNames q.2.os_required, goodStr o :=
      moduleOsNames_good _ hqos
    have hfbn : moduleOsNames q.2.os_required = [] →
        moduleOsNames (importedModule q.2).os_required = [] := by
      intro hempty
      cases hcase : q.2.os_required with
      | nil =>
        show moduleOsNames (q.2.os_required.map foldOSEntry) = []
        rw [hcase]
        rfl
      | cons e rest =>
        exfalso
        rw [hcase] at hempty
        exact moduleOsNames_ne_nil e rest
          (hqos e (by rw [hcase]; exact List.mem_cons_self _ _)) hempty
    have hbatch := import_software_batch q.1 (moduleOsNames q.2.os_required)
      q.2.software d (importedModule q.2) hqa hq1 hqsw hnames hfbn
    rw [hbatch]
    apply ih
    · exact hnd'
    · intro z hz
      obtain ⟨hz1, hz2, hz3, hz4⟩ := hh z (List.mem_cons_of_mem _ hz)
      refine ⟨hz1, hz2, hz3, ?_⟩
      have hne : q.1 ≠ z.1 := by
        intro heq
        apply hqnot
        rw [heq]
        exact List.mem_map.mpr ⟨z, hz, rfl⟩
      rw [alookup_modifyVal_ne _ _ _ _ hne]
      exact hz4

theorem import_software_assemble :
    ∀ (l pre : List (Str × Module)),
      (pre.map Prod.fst ++ l.map Prod.fst).Nodup →
      l.foldl (fun acc q => modifyVal acc q.1 (fun mm =>
          { mm with software := mm.software ++
              q.2.software.map (idealizeSoftware (moduleOsNames q.2.os_required)) }))
        (pre ++ l.map (fun q => (q.1, importedModule q.2)))
      = pre ++ l.map (fun q => (q.1, idealizeModule q.2)) := by
  intro l
  induction l with
  | nil =>
    intro pre _
    simp
  | cons q l' ih =>
    intro pre hnd
    obtain ⟨a, v⟩ := q
    have hnd' : (pre.map Prod.fst ++ a :: l'.map Prod.fst).Nodup := hnd
    obtain ⟨hnp, hnc, hdisj⟩ := List.nodup_append.mp hnd'
    have hnotpre : a ∉ pre.map Prod.fst :=
      fun hmem => hdisj hmem (List.mem_cons_self _ _)
    have hnotl' : a ∉ (l'.map (fun q => (q.1, importedModule q.2))).map Prod.fst := by
      intro hmem
      apply (List.nodup_cons.mp hnc).1
      obtain ⟨p, hp, hpe⟩ := List.mem_map.mp hmem
      obtain ⟨z, hz, hze⟩ := List.mem_map.mp hp
      rw [← hze] at hpe
      exact List.mem_map.mpr ⟨z, hz, hpe⟩
    rw [List.map_cons, List.foldl_cons]
    have hstep : modifyVal
        (pre ++ (a, importedModule v) :: l'.map (fun q => (q.1, importedModule q.2)))
        a (fun mm =>
          { mm with software := mm.software ++
              v.software.map (idealizeSoftware (moduleOsNames v.os_required)) })
        = pre ++ (a, idealizeModule v) :: l'.map (fun q => (q.1, importedModule q.2)) := by
      rw [modifyVal_append, modifyVal_cons, if_pos rfl,
        modifyVal_of_not_mem _ _ _ hnotpre,
        modifyVal_of_not_mem _ _ _ hnotl']
      rfl
    rw [hstep]
    have hmain := ih (pre ++ [(a, idealizeModule v)]) (by
      have hkeys : ((pre ++ [(a, idealizeModule v)]).map Prod.fst ++ l'.map Prod.fst)
          = pre.map Prod.fst ++ a :: l'.map Prod.fst := by simp
      rw [hkeys]
      exact hnd')
    rw [List.append_cons pre (a, idealizeModule v)
      (l'.map (fun q => (q.1, importedModule q.2)))]
    rw [hmain]
    simp

/-- C1 (amended, characterization): on every well-formed document, the
export/import round trip succeeds and produces exactly the idealized
document: every instructor and every module field is preserved, except that
each required-OS entry is replaced by its display string (the note folded
into the name as name-space-parenthesized-note, the note and description
fields lost), and a software entry with an empty os_supported list comes
back with the module's required-OS names materialized (the documented
display-inheritance fallback). -/
theorem C1_roundtrip (cfg : Config) (h : WellFormed cfg) :
    roundTrip cfg = some (idealize cfg) := by
  obtain ⟨hkI, hkM, hInst, hMod⟩ := h
  have hA := import_instructors_phase cfg.instructors [] (by simpa using hkI) hInst
  rw [List.nil_append] at hA
  have hB := import_modules_phase cfg.modules [] (by simpa using hkM)
    (fun q hq => ⟨(hMod q hq).1, (hMod q hq).2.1, (hMod q hq).2.2.1,
      (hMod q hq).2.2.2.1⟩)
  rw [List.nil_append] at hB
  have hC := import_software_phase cfg.modules
    (cfg.modules.map (fun q => (q.1, importedModule q.2))) hkM
    (fun q hq => ⟨(hMod q hq).1, (hMod q hq).2.2.2.2, (hMod q hq).2.2.2.1, by
      rw [alookup_map_kv (fun _ v => importedModule v)]
      rw [alookup_self_of_nodup cfg.modules hkM q hq]
      rfl⟩)
  have hD := import_software_assemble cfg.modules [] (by simpa using hkM)
  rw [List.nil_append] at hD
  show importFromExcel (exportToExcel cfg) cfg = some (idealize cfg)
  unfold importFromExcel exportToExcel
  dsimp only
  rw [hA, hB]
  dsimp only
  rw [hC, hD]
  rfl

/-- C1 (counterexample): the round trip is not the identity modulo the
OS-inheritance fallback.  On cfgBase, whose modules carry no software at
all so the inheritance fallback plays no role, the reconstructed document
differs from the original: a required-OS dict entry with a note comes back
as a single folded name string with no note. -/
theorem C1_counterexample :
    roundTrip cfgBase = some (idealize cfgBase) ∧
    idealize cfgBase ≠ cfgBase ∧
    (∀ q ∈ cfgBase.modules, q.2.software = []) ∧
    (alookup (idealize cfgBase).modules m1Key).map Module.os_required ≠
      (alookup cfgBase.modules m1Key).map Module.os_required := by
  exact ⟨by decide, by decide, by decide, by decide⟩

/-- C1 (witness). -/
theorem C1_roundtrip_witness :
    WellFormed cfgBase ∧ roundTrip cfgBase = some (idealize cfgBase) :=
  ⟨by decide, C1_roundtrip cfgBase (by decide)⟩

end TSM
